import Mathlib

/-!
Verification development for the GEDCOM Shell Navigator core
(family-tree repository): a shallow embedding, in Lean 4, of the
encoding resolver, ANSEL decoder, GEDCOM line tokenizer, record
assembler, multi-calendar date parser and the genealogical graph model,
together with theorems settling the specification claims about them.

JavaScript strings are modelled as Lean `String`/`List Char`, byte
buffers as `List Nat` (one entry per byte, each < 256), `undefined`
fields as `Option`, JS `Map`s as association lists in insertion order,
and the thrown `TypeError` of the one crashing code path as
`Except.error`.  JS regular expressions are translated into
deterministic maximal-munch scanners; at every boundary used by the
source patterns the adjacent character classes are disjoint, so maximal
munch agrees with the backtracking semantics of the original regexes.
-/

namespace FamilyTree

/-! ## JavaScript character-class primitives -/

/-- Characters matched by the JavaScript regex class `\s` and stripped by
`String.prototype.trim`: ASCII whitespace, NBSP, the Unicode space
separators, the line separators U+2028/U+2029, and the BOM. -/
def isJsSpace (c : Char) : Bool :=
  let n := c.toNat
  n = 32 || n = 9 || n = 10 || n = 11 || n = 12 || n = 13 ||
  n = 0xA0 || n = 0x1680 || (0x2000 ≤ n && n ≤ 0x200A) ||
  n = 0x2028 || n = 0x2029 || n = 0x202F || n = 0x205F ||
  n = 0x3000 || n = 0xFEFF

/-- JS regex class `\d`. -/
def isDigitCh (c : Char) : Bool :=
  48 ≤ c.toNat && c.toNat ≤ 57

/-- JS regex class `[A-Z]` (case sensitive). -/
def isUpperCh (c : Char) : Bool :=
  65 ≤ c.toNat && c.toNat ≤ 90

/-- JS regex class `[A-Z]` under the `i` flag, i.e. any ASCII letter. -/
def isLetterCh (c : Char) : Bool :=
  (65 ≤ c.toNat && c.toNat ≤ 90) || (97 ≤ c.toNat && c.toNat ≤ 122)

/-- JS regex class `\w`. -/
def isWordCh (c : Char) : Bool :=
  isLetterCh c || isDigitCh c || c = '_'

/-- JS regex class `[\w-]` (used by the CHAR-token capture). -/
def isWordHyphenCh (c : Char) : Bool :=
  isWordCh c || c = '-'

/-- Characters the JS regex `.` refuses to match (line terminators). -/
def isLineTermCh (c : Char) : Bool :=
  let n := c.toNat
  n = 10 || n = 13 || n = 0x2028 || n = 0x2029

/-- `String.prototype.trim` on a character list. -/
def jsTrim (cs : List Char) : List Char :=
  ((cs.dropWhile isJsSpace).reverse.dropWhile isJsSpace).reverse

/-- ASCII uppercasing of one character, the fragment of
`String.prototype.toUpperCase` exercised by the source (all compared
tokens are ASCII). -/
def jsUpperCh (c : Char) : Char :=
  if 97 ≤ c.toNat && c.toNat ≤ 122 then Char.ofNat (c.toNat - 32) else c

/-- ASCII uppercasing of a string. -/
def jsUpper (s : String) : String :=
  String.mk (s.data.map jsUpperCh)

/-- Numeric value of a digit string (`parseInt(d, 10)` on an all-digit
capture). -/
def natOfDigits (ds : List Char) : Nat :=
  ds.foldl (fun a c => a * 10 + (c.toNat - 48)) 0

/-- `parseInt(v, 10) || 0` as used for the `NCHI` tag: skip leading JS
whitespace, read an optional sign and then a maximal digit prefix;
no digits gives `NaN`, which `|| 0` turns into `0`. -/
def jsParseIntOr0 (v : String) : Int :=
  let cs := v.data.dropWhile isJsSpace
  let (neg, cs) : Bool × List Char :=
    match cs with
    | '-' :: r => (true, r)
    | '+' :: r => (false, r)
    | r => (false, r)
  let ds := cs.takeWhile isDigitCh
  if ds = [] then 0
  else if neg then -(natOfDigits ds : Int) else (natOfDigits ds : Int)

/-! ## Multi-calendar date parser (`src/utils/dateParser.js`) -/

/-- The structured date object produced by `parseGedcomDate`. -/
structure PDate where
  calendar : String
  year : Nat
  month : Nat
  day : Nat
  modifier : Option String
  original : String
deriving DecidableEq, Repr

/-- `MONTH_MAP_ZERO_BASED` from `src/utils/constants.js`. -/
def MONTH_MAP_ZERO_BASED (m : String) : Option Nat :=
  if m = "JAN" then some 0 else if m = "FEB" then some 1
  else if m = "MAR" then some 2 else if m = "APR" then some 3
  else if m = "MAY" then some 4 else if m = "JUN" then some 5
  else if m = "JUL" then some 6 else if m = "AUG" then some 7
  else if m = "SEP" then some 8 else if m = "OCT" then some 9
  else if m = "NOV" then some 10 else if m = "DEC" then some 11
  else none

/-- The twelve GEDCOM month abbreviations (the `monthNames` array used to
rule out months as calendar suffixes). -/
def gedcomMonthNames : List String :=
  ["JAN", "FEB", "MAR", "APR", "MAY", "JUN",
   "JUL", "AUG", "SEP", "OCT", "NOV", "DEC"]

/-- The modifier alternation of `parseGedcomDate`, in source order. -/
def dateModifierKeywords : List String :=
  ["ABT", "ABOUT", "BEF", "BEFORE", "AFT", "AFTER",
   "BET", "BETWEEN", "EST", "ESTIMATED", "CAL", "CALCULATED"]

/-- Case-insensitive ASCII match of a keyword against a prefix of the
input; returns the remainder after the keyword. -/
def ciMatchKeyword : List Char → List Char → Option (List Char)
  | [], cs => some cs
  | k :: ks, c :: cs => if jsUpperCh c = k then ciMatchKeyword ks cs else none
  | _ :: _, [] => none

/-- One alternative of `^(MOD)\s+(.+)$/i`: keyword, then at least one
whitespace character, then a non-empty line-terminator-free remainder
(the `(.+)$` part; leading terminators are themselves whitespace and are
absorbed by the greedy `\s+`). -/
def tryModifierKeyword (k : String) (cs : List Char) : Option (String × List Char) :=
  match ciMatchKeyword k.data cs with
  | none => none
  | some r0 =>
    match r0 with
    | [] => none
    | c :: _ =>
      if isJsSpace c then
        let r := r0.dropWhile isJsSpace
        if r ≠ [] ∧ r.all (fun c => !isLineTermCh c) then some (k, r) else none
      else none

/-- The leading-modifier regex: try the alternatives in source order
(JS alternation picks the first one whose whole pattern succeeds). -/
def findDateModifier : List String → List Char → Option (String × List Char)
  | [], _ => none
  | k :: ks, cs =>
    match tryModifierKeyword k cs with
    | some r => some r
    | none => findDateModifier ks cs

/-- The trailing-calendar regex `\s+([A-Z]{2,4})$`: it matches exactly
when the maximal run of uppercase ASCII letters at the end of the string
has length 2..4 and is preceded by a whitespace character (for any other
ending run length no start position can satisfy the pattern).  Returns
the captured run and the rest of the string (already trimmed, mirroring
`substring(0, len - suffix.length).trim()`). -/
def calendarSuffixSplit (d : List Char) : Option (String × List Char) :=
  let revRun := d.reverse.takeWhile isUpperCh
  let L := revRun.length
  if 2 ≤ L ∧ L ≤ 4 then
    match d.reverse.drop L with
    | [] => none
    | c :: _ =>
      if isJsSpace c then
        some (String.mk revRun.reverse, jsTrim (d.take (d.length - L)))
      else none
  else none

/-- `^(\d+)\s+([A-Z]+)\s+(\d+)$/i`: DAY MONTH YEAR. -/
def matchDayMonthYear (core : List Char) : Option (Nat × String × Nat) :=
  let d1 := core.takeWhile isDigitCh
  if d1 = [] then none else
  let r1 := core.dropWhile isDigitCh
  if r1.takeWhile isJsSpace = [] then none else
  let r2 := r1.dropWhile isJsSpace
  let m := r2.takeWhile isLetterCh
  if m = [] then none else
  let r3 := r2.dropWhile isLetterCh
  if r3.takeWhile isJsSpace = [] then none else
  let r4 := r3.dropWhile isJsSpace
  let y := r4.takeWhile isDigitCh
  if y = [] then none else
  if r4.dropWhile isDigitCh = [] then
    some (natOfDigits d1, String.mk m, natOfDigits y)
  else none

/-- `^([A-Z]+)\s+(\d+)$/i`: MONTH YEAR. -/
def matchMonthYear (core : List Char) : Option (String × Nat) :=
  let m := core.takeWhile isLetterCh
  if m = [] then none else
  let r1 := core.dropWhile isLetterCh
  if r1.takeWhile isJsSpace = [] then none else
  let r2 := r1.dropWhile isJsSpace
  let y := r2.takeWhile isDigitCh
  if y = [] then none else
  if r2.dropWhile isDigitCh = [] then some (String.mk m, natOfDigits y) else none

/-- `parseGedcomDate` from `src/utils/dateParser.js`: strip an optional
leading modifier, detect a trailing non-month calendar suffix (default
`GREGORIAN`), then try DAY MONTH YEAR, MONTH YEAR, YEAR in that order. -/
def parseGedcomDate (dateStr : String) : Option PDate :=
  if dateStr = "" then none else
  let trimmed := jsTrim dateStr.data
  let (modifier, dateWithoutModifier) :=
    match findDateModifier dateModifierKeywords trimmed with
    | some (m, r) => (some m, r)
    | none => ((none : Option String), trimmed)
  let (calendar, dateCore) :=
    match calendarSuffixSplit dateWithoutModifier with
    | some (cal, core) =>
      if gedcomMonthNames.contains cal then ("GREGORIAN", dateWithoutModifier)
      else (cal, core)
    | none => ("GREGORIAN", dateWithoutModifier)
  let std :=
    match matchDayMonthYear dateCore with
    | some (day, mon, year) =>
      (MONTH_MAP_ZERO_BASED (jsUpper mon)).map fun monthNum =>
        PDate.mk calendar year (monthNum + 1) day modifier dateStr
    | none => none
  match std with
  | some p => some p
  | none =>
    let my :=
      match matchMonthYear dateCore with
      | some (mon, year) =>
        (MONTH_MAP_ZERO_BASED (jsUpper mon)).map fun monthNum =>
          PDate.mk calendar year (monthNum + 1) 1 modifier dateStr
      | none => none
    match my with
    | some p => some p
    | none =>
      if dateCore ≠ [] ∧ dateCore.all isDigitCh then
        some (PDate.mk calendar (natOfDigits dateCore) 1 1 modifier dateStr)
      else none

/-- `calculateYearDifference` from `src/utils/dateParser.js`: null on a
missing argument, null across differing calendars, otherwise the year
difference with the anniversary adjustment. -/
def calculateYearDifference (fromDate toDate : Option PDate) : Option Int :=
  match fromDate, toDate with
  | none, _ => none
  | some _, none => none
  | some f, some t =>
    if f.calendar ≠ t.calendar then none
    else
      let age : Int := (t.year : Int) - (f.year : Int)
      if t.month < f.month ∨ (t.month = f.month ∧ t.day < f.day) then
        some (age - 1)
      else some age

/-! ## ANSEL decoder (`anselDecoder.js`) -/

/-- `BUFFER_SIZES.HEADER_PREVIEW` from `src/utils/constants.js`. -/
def HEADER_PREVIEW : Nat := 1000

/-- `BUFFER_SIZES.ANSEL_SCAN_LIMIT` from `src/utils/constants.js`. -/
def ANSEL_SCAN_LIMIT : Nat := 10000

/-- The `ANSEL_COMBINING` table: combining-mark byte to Unicode combining
codepoint.  Total on 0xE0..0xFE. -/
def anselCombining (b : Nat) : Option Char :=
  match b with
  | 0xE0 => some (Char.ofNat 0x0309) -- hook above
  | 0xE1 => some (Char.ofNat 0x0300) -- grave
  | 0xE2 => some (Char.ofNat 0x0301) -- acute
  | 0xE3 => some (Char.ofNat 0x0302) -- circumflex
  | 0xE4 => some (Char.ofNat 0x0303) -- tilde
  | 0xE5 => some (Char.ofNat 0x0304) -- macron
  | 0xE6 => some (Char.ofNat 0x0306) -- breve
  | 0xE7 => some (Char.ofNat 0x0307) -- dot above
  | 0xE8 => some (Char.ofNat 0x0308) -- diaeresis
  | 0xE9 => some (Char.ofNat 0x030C) -- caron
  | 0xEA => some (Char.ofNat 0x030A) -- ring above
  | 0xEB => some (Char.ofNat 0x0327) -- cedilla
  | 0xEC => some (Char.ofNat 0x0328) -- ogonek
  | 0xED => some (Char.ofNat 0x0323) -- dot below
  | 0xEE => some (Char.ofNat 0x0324) -- diaeresis below
  | 0xEF => some (Char.ofNat 0x0325) -- ring below
  | 0xF0 => some (Char.ofNat 0x031C) -- half ring below left
  | 0xF1 => some (Char.ofNat 0x032E) -- breve below
  | 0xF2 => some (Char.ofNat 0x0333) -- double low line
  | 0xF3 => some (Char.ofNat 0x0323) -- dot below
  | 0xF4 => some (Char.ofNat 0x0324) -- diaeresis below
  | 0xF5 => some (Char.ofNat 0x0325) -- ring below
  | 0xF6 => some (Char.ofNat 0x0326) -- comma below
  | 0xF7 => some (Char.ofNat 0x0327) -- cedilla
  | 0xF8 => some (Char.ofNat 0x0328) -- ogonek
  | 0xF9 => some (Char.ofNat 0x032D) -- circumflex below
  | 0xFA => some (Char.ofNat 0x0331) -- macron below
  | 0xFB => some (Char.ofNat 0x032E) -- breve below
  | 0xFC => some (Char.ofNat 0x0323) -- dot below
  | 0xFD => some (Char.ofNat 0x0323) -- dot below
  | 0xFE => some (Char.ofNat 0x0313) -- comma above
  | _ => none

/-- A value of the `ANSEL_PRECOMPOSED` table: the source file's string
literals are encoding-corrupted (the UTF-8 bytes of the intended
precomposed letters re-decoded through cp1251), so every value is the
two-character string U+0413 followed by one more character. -/
def mojibake2 (n : Nat) : String :=
  String.mk [Char.ofNat 0x0413, Char.ofNat n]

/-- The `ANSEL_PRECOMPOSED` table.  The JS key is the lowercase hex of
the mark byte concatenated with `String.fromCharCode(nextByte)`; for
mark bytes in 0xE0..0xFE this is equivalent to matching on the pair
(mark byte, base character).  The values are transcribed byte-for-byte
from the source file, whose literals are mojibake: e.g. the entry for
key `e2a` (commented "acute" in the source) is the two-character string
U+0413 U+040E — the UTF-8 encoding of the evidently intended "á"
mis-decoded as cp1251 — and not the precomposed "á" itself. -/
def anselPrecomposed (b : Nat) (c : Char) : Option String :=
  match b with
  | 0xE2 => -- acute
    if c = 'a' then some (mojibake2 0x040E)
    else if c = 'A' then some (mojibake2 0x0403)
    else if c = 'e' then some (mojibake2 0x00A9)
    else if c = 'E' then some (mojibake2 0x2030)
    else if c = 'i' then some (mojibake2 0x00AD)
    else if c = 'I' then some (mojibake2 0x040C)
    else if c = 'o' then some (mojibake2 0x0456)
    else if c = 'O' then some (mojibake2 0x201C)
    else if c = 'u' then some (mojibake2 0x0454)
    else if c = 'U' then some (mojibake2 0x0459)
    else if c = 'y' then some (mojibake2 0x0405)
    else if c = 'Y' then some (mojibake2 0x045C)
    else none
  | 0xE1 => -- grave
    if c = 'a' then some (mojibake2 0x00A0)
    else if c = 'A' then some (mojibake2 0x0402)
    else if c = 'e' then some (mojibake2 0x0401)
    else if c = 'E' then some (mojibake2 0x20AC)
    else if c = 'i' then some (mojibake2 0x00AC)
    else if c = 'I' then some (mojibake2 0x040A)
    else if c = 'o' then some (mojibake2 0x0406)
    else if c = 'O' then some (mojibake2 0x2019)
    else if c = 'u' then some (mojibake2 0x2116)
    else if c = 'U' then some (mojibake2 0x2122)
    else none
  | 0xE3 => -- circumflex
    if c = 'a' then some (mojibake2 0x045E)
    else if c = 'A' then some (mojibake2 0x201A)
    else if c = 'e' then some (mojibake2 0x0404)
    else if c = 'E' then some (mojibake2 0x0409)
    else if c = 'i' then some (mojibake2 0x00AE)
    else if c = 'I' then some (mojibake2 0x040B)
    else if c = 'o' then some (mojibake2 0x0491)
    else if c = 'O' then some (mojibake2 0x201D)
    else if c = 'u' then some (mojibake2 0x00BB)
    else if c = 'U' then some (mojibake2 0x203A)
    else none
  | 0xE4 => -- tilde
    if c = 'a' then some (mojibake2 0x0408)
    else if c = 'A' then some (mojibake2 0x0453)
    else if c = 'n' then some (mojibake2 0x00B1)
    else if c = 'N' then some (mojibake2 0x2018)
    else if c = 'o' then some (mojibake2 0x00B5)
    else if c = 'O' then some (mojibake2 0x2022)
    else none
  | 0xE8 => -- diaeresis
    if c = 'a' then some (mojibake2 0x00A4)
    else if c = 'A' then some (mojibake2 0x201E)
    else if c = 'e' then some (mojibake2 0x00AB)
    else if c = 'E' then some (mojibake2 0x2039)
    else if c = 'i' then some (mojibake2 0x0407)
    else if c = 'I' then some (mojibake2 0x040F)
    else if c = 'o' then some (mojibake2 0x00B6)
    else if c = 'O' then some (mojibake2 0x2013)
    else if c = 'u' then some (mojibake2 0x0458)
    else if c = 'U' then some (mojibake2 0x045A)
    else if c = 'y' then some (mojibake2 0x0457)
    else none
  | 0xEA => -- ring above
    if c = 'a' then some (mojibake2 0x0490)
    else if c = 'A' then some (mojibake2 0x2026)
    else none
  | 0xEB => -- cedilla
    if c = 'c' then some (mojibake2 0x00A7)
    else if c = 'C' then some (mojibake2 0x2021)
    else none
  | _ => none

/-- The pass-through branches of `decodeAnsel`: bytes below 0x80 and
bytes at or above 0xA0 are emitted as their own codepoint; bytes in
0x80..0x9F fall through both branches and produce nothing. -/
def anselPass (b : Nat) : String :=
  if b < 0x80 then String.mk [Char.ofNat b]
  else if 0xA0 ≤ b then String.mk [Char.ofNat b]
  else ""

/-- `decodeAnsel`: a byte in the combining range 0xE0..0xFE followed by
another byte is decoded as a (mark, base) pair — precomposed character
when the table has an entry, otherwise base character followed by the
combining codepoint — consuming two bytes; every other byte is handled
by the pass-through branches, consuming one byte. -/
def decodeAnsel : List Nat → String
  | [] => ""
  | [b] => anselPass b
  | b :: b2 :: rest =>
    if 0xE0 ≤ b ∧ b ≤ 0xFE then
      match anselPrecomposed b (Char.ofNat b2) with
      | some s => s ++ decodeAnsel rest
      | none =>
        match anselCombining b with
        | some comb => String.mk [Char.ofNat b2, comb] ++ decodeAnsel rest
        | none => anselPass b ++ decodeAnsel (b2 :: rest)
    else
      anselPass b ++ decodeAnsel (b2 :: rest)

/-- `isAnsel`: scan up to `ANSEL_SCAN_LIMIT` leading bytes for any byte
in the combining range. -/
def isAnsel (buffer : List Nat) : Bool :=
  (buffer.take ANSEL_SCAN_LIMIT).any fun b => 0xE0 ≤ b && b ≤ 0xFE

/-! ## Encoding resolver (the header-scan part of `GedcomParser.parse`) -/

/-- Node's `'ascii'` decoding of the bounded header preview: each byte is
masked to 7 bits. -/
def asciiPreview (buffer : List Nat) : List Char :=
  (buffer.take HEADER_PREVIEW).map fun b => Char.ofNat (b % 128)

/-- Attempt to match the regex `1\s+CHAR\s+([\w-]+)` at the start of the
given character list; returns the captured token. -/
def matchCharTokenAt (cs : List Char) : Option (List Char) :=
  match cs with
  | '1' :: r0 =>
    if r0.takeWhile isJsSpace = [] then none else
    (match r0.dropWhile isJsSpace with
     | 'C' :: 'H' :: 'A' :: 'R' :: r1 =>
       if r1.takeWhile isJsSpace = [] then none else
       let tok := (r1.dropWhile isJsSpace).takeWhile isWordHyphenCh
       if tok = [] then none else some tok
     | _ => none)
  | _ => none

/-- Leftmost match of `1\s+CHAR\s+([\w-]+)` (the JS `match` scans start
positions left to right). -/
def findCharToken : List Char → Option (List Char)
  | [] => none
  | c :: rest =>
    match matchCharTokenAt (c :: rest) with
    | some tok => some tok
    | none => findCharToken rest

/-- The decode strategy chosen by the encoding resolver.  `ansel` stands
for the branch that runs `decodeAnsel` directly; the other constructors
stand for the iconv decode with the corresponding encoding name. -/
inductive DecodeStrategy where
  | ansel
  | latin1
  | asciiDec
  | utf8
  | utf16
deriving DecidableEq, Repr

/-- The encoding-detection logic of `GedcomParser.parse`: `encoding`
starts as `'utf-8'`; when the bounded ASCII preview contains a
`1 CHAR <token>` match, the uppercased token selects the strategy
(`ANSEL` additionally consults the `isAnsel` heuristic, unknown tokens
fall back to latin1); with no match the initial UTF-8 default stands. -/
def resolveEncoding (buffer : List Nat) : DecodeStrategy :=
  match findCharToken (asciiPreview buffer) with
  | none => .utf8
  | some tok =>
    let g := jsUpper (String.mk tok)
    if g = "ANSEL" then
      if isAnsel buffer then .ansel else .latin1
    else if g = "ASCII" then .asciiDec
    else if g = "UNICODE" ∨ g = "UTF-8" ∨ g = "UTF8" then .utf8
    else if g = "UTF-16" ∨ g = "UTF16" then .utf16
    else .latin1

/-- The byte list of an ASCII string, for writing concrete buffers. -/
def asciiBytes (s : String) : List Nat :=
  s.data.map Char.toNat

/-! ## Line tokenizer (`parseLine` in `lineParser.js`) -/

/-- A tokenized GEDCOM line: `LEVEL [XREF] TAG [VALUE]`. -/
structure GLine where
  level : Nat
  xref : Option String
  tag : String
  value : String
deriving DecidableEq, Repr

/-- The three observable outcomes of `parseLine`: no token for a blank
line, a console warning plus no token for a line that fails the
grammar, or a token. -/
inductive LineOutcome where
  | blank
  | warn
  | tok (t : GLine)
deriving DecidableEq, Repr

/-- `(takeWhile, dropWhile)` split. -/
def splitWhile (p : Char → Bool) (cs : List Char) : List Char × List Char :=
  (cs.takeWhile p, cs.dropWhile p)

/-- The optional group `(@\w+@\s+)?`: greedy attempt to consume an xref
and its trailing whitespace.  When the group cannot match it is skipped
and the remainder is returned unchanged (in which case the following
`\w+` necessarily fails on the leading `@`, as in the JS regex). -/
def tryXrefGroup (cs : List Char) : Option String × List Char :=
  match cs with
  | '@' :: rs =>
    let (w, q) := splitWhile isWordCh rs
    if w = [] then (none, cs) else
    (match q with
     | '@' :: q2 =>
       let (ws2, r2) := splitWhile isJsSpace q2
       if ws2 = [] then (none, cs)
       else (some (String.mk (jsTrim ('@' :: w ++ '@' :: ws2))), r2)
     | _ => (none, cs))
  | _ => (none, cs)

/-- The body of the line regex
`^(\d+)\s+(@\w+@\s+)?(\w+)(\s+(.*))?$` on the trimmed line, as a
deterministic maximal-munch scanner.  The trailing value group matches
exactly when the remainder starts with whitespace and the suffix after
the maximal whitespace run is free of line terminators (`.` cannot cross
them and `$` only matches at the very end). -/
def parseLineCore (cs : List Char) : Option GLine :=
  let (lvl, r0) := splitWhile isDigitCh cs
  if lvl = [] then none else
  let (w1, r1) := splitWhile isJsSpace r0
  if w1 = [] then none else
  let (xref, r2) := tryXrefGroup r1
  let (tag, r3) := splitWhile isWordCh r2
  if tag = [] then none else
  if r3 = [] then
    some (GLine.mk (natOfDigits lvl) xref (String.mk tag) "")
  else
    let (w2, v) := splitWhile isJsSpace r3
    if w2 = [] then none
    else if v.all (fun c => !isLineTermCh c) then
      some (GLine.mk (natOfDigits lvl) xref (String.mk tag) (String.mk (jsTrim v)))
    else none

/-- `parseLine`: blank (or falsy) lines give no token; a line whose
trimmed text fails the grammar warns and gives no token; otherwise the
token is returned. -/
def parseLine (line : String) : LineOutcome :=
  if jsTrim line.data = [] then .blank
  else
    match parseLineCore (jsTrim line.data) with
    | some t => .tok t
    | none => .warn

/-- The `LEVEL [XREF] TAG [VALUE]` grammar, stated as a decomposition of
the trimmed line: a non-empty digit run, whitespace, an optional
`@word@`-plus-whitespace xref group, a non-empty word-character tag, and
an optional whitespace-then-value part whose value contains no line
terminator. -/
def matchesLineGrammar (cs : List Char) : Prop :=
  ∃ (lvl w1 x tag rest : List Char),
    cs = lvl ++ w1 ++ x ++ tag ++ rest ∧
    lvl ≠ [] ∧ (∀ c ∈ lvl, isDigitCh c) ∧
    w1 ≠ [] ∧ (∀ c ∈ w1, isJsSpace c) ∧
    (x = [] ∨ ∃ (w xw : List Char),
      x = '@' :: w ++ '@' :: xw ∧ w ≠ [] ∧ (∀ c ∈ w, isWordCh c) ∧
      xw ≠ [] ∧ (∀ c ∈ xw, isJsSpace c)) ∧
    tag ≠ [] ∧ (∀ c ∈ tag, isWordCh c) ∧
    (rest = [] ∨ ∃ (w2 v : List Char),
      rest = w2 ++ v ∧ w2 ≠ [] ∧ (∀ c ∈ w2, isJsSpace c) ∧
      (∀ c ∈ v, !isLineTermCh c))

/-! ## Name tokenizer (`parseName` in `lineParser.js`) -/

/-- The name-parts object produced by `parseName`.  The falsy-input
branch leaves `suffix` undefined (`none`); the other branches set it. -/
structure NameParts where
  full : String
  given : String
  surname : String
  suffix : Option String
deriving DecidableEq, Repr

/-- Split at the first `/`, returning the parts before and after it. -/
def splitFirstSlash : List Char → Option (List Char × List Char)
  | [] => none
  | '/' :: rest => some ([], rest)
  | c :: rest =>
    match splitFirstSlash rest with
    | some (a, b) => some (c :: a, b)
    | none => none

/-- `parseName`: the regex `^([^\/]*?)\/([^\/]*)\/(.*)?$` forces the
given part to end at the first slash and the surname at the second; the
suffix is the remainder, which must be line-terminator free for the
regex to reach `$`.  Without such a decomposition the whole value is the
given name. -/
def parseName (nameValue : String) : NameParts :=
  if nameValue = "" then NameParts.mk "" "" "" none
  else
    let noSlash : NameParts :=
      NameParts.mk (String.mk (jsTrim nameValue.data))
        (String.mk (jsTrim nameValue.data)) "" (some "")
    match splitFirstSlash nameValue.data with
    | none => noSlash
    | some (given, r1) =>
      match splitFirstSlash r1 with
      | none => noSlash
      | some (surname, suffix) =>
        if suffix.all (fun c => !isLineTermCh c) then
          NameParts.mk
            (String.mk (jsTrim (nameValue.data.filter (fun c => c ≠ '/'))))
            (String.mk (jsTrim given))
            (String.mk (jsTrim surname))
            (some (String.mk (jsTrim suffix)))
        else noSlash

/-! ## Record assembler (`GedcomParser` in `gedcomParser.js`)

The parser state is mutable in JS.  Objects that the level-indexed
context stack can alias (events, addresses, change-date objects, the
header source object) are given fresh numeric identities drawn from a
counter; a stack slot stores the identity, and a write through a slot
takes effect exactly when an object with that identity is still live in
the record data, which reproduces the JS by-reference mutation,
including writes through stale slots that hit dead objects (no-ops). -/

/-- An address object (`{line, city?, country?}`). -/
structure AddrSt where
  line : String
  city : Option String
  country : Option String
deriving DecidableEq, Repr

/-- A change-date object (`{}`, later possibly `date`/`time`). -/
structure ChangeDate where
  date : Option String
  time : Option String
deriving DecidableEq, Repr

/-- The provisional `currentEvent` object (`{type: tag}` at creation). -/
structure EventSt where
  etype : String
  date : Option String
  place : Option String
  note : Option String
  eventType : Option String
  title : Option String
  time : Option String
  address : Option (Nat × AddrSt)
deriving DecidableEq, Repr

/-- `{type: tag}`: a freshly opened event. -/
def newEvent (tag : String) : EventSt :=
  EventSt.mk tag none none none none none none none

/-- A committed birth/death/marriage/divorce (`{date, place}`). -/
structure BD where
  date : String
  place : String
deriving DecidableEq, Repr

/-- A committed baptism/first-communion (`{date, place, note}`). -/
structure BapSt where
  date : String
  place : String
  note : String
deriving DecidableEq, Repr

/-- A committed graduation (`{type, date, place, note}`). -/
structure GradSt where
  gtype : String
  date : String
  place : String
  note : String
deriving DecidableEq, Repr

/-- A committed residence (`{date, address}`).  `addrId` is the identity
of the shared address object (`none` for the fallback `{line: ''}`
object created at finalization, which is never on the stack). -/
structure ResiSt where
  date : String
  addrId : Option Nat
  address : AddrSt
deriving DecidableEq, Repr

/-- A note-list item: `{ref}` or `{text}`. -/
structure NoteItem where
  ref : Option String
  text : Option String
deriving DecidableEq, Repr

/-- The accumulating data of an individual record. -/
structure IndiData where
  name : Option NameParts
  sex : Option String
  birth : Option BD
  death : Option BD
  baptism : Option BapSt
  firstCommunion : Option BapSt
  graduations : List GradSt
  residences : List ResiSt
  objects : List String
  notes : List NoteItem
  familiesAsChild : List String
  familiesAsSpouse : List String
  changeDate : Option (Nat × ChangeDate)
deriving DecidableEq, Repr

def emptyIndiData : IndiData :=
  IndiData.mk none none none none none none [] [] [] [] [] [] none

/-- The accumulating data of a family record. -/
structure FamData where
  husband : Option String
  wife : Option String
  children : List String
  marriage : Option BD
  divorce : Option BD
  numberOfChildren : Option Int
  notes : List NoteItem
  changeDate : Option (Nat × ChangeDate)
deriving DecidableEq, Repr

def emptyFamData : FamData :=
  FamData.mk none none [] none none none [] none

/-- The accumulating data of a note record. -/
structure NoteData where
  text : Option String
  changeDate : Option (Nat × ChangeDate)
deriving DecidableEq, Repr

def emptyNoteData : NoteData := NoteData.mk none none

/-- The accumulating data of a submitter record. -/
structure SubmData where
  name : Option String
  changeDate : Option (Nat × ChangeDate)
deriving DecidableEq, Repr

def emptySubmData : SubmData := SubmData.mk none none

/-- The `currentRecord` object.  `recDate`/`recTime` on note and
submitter records model the `DATE`/`TIME` writes that land on the record
object itself (its stack slot is distinct from `data`) and are dropped
at finalization.  `other` covers xref records whose tag is none of
INDI/FAM/NOTE/SUBM: no per-type handler runs for them and finalization
discards them. -/
inductive CurRec where
  | header
  | indi (id : String) (d : IndiData)
  | fam (id : String) (d : FamData)
  | note (id : String) (d : NoteData) (recDate recTime : Option String)
  | subm (id : String) (d : SubmData) (recDate recTime : Option String)
  | other (tag : String) (id : String)
deriving DecidableEq, Repr

/-- The header source object (`{name, version?, corporation?,
address?}`). -/
structure HSource where
  name : String
  version : Option String
  corporation : Option String
  address : Option String
deriving DecidableEq, Repr

/-- The `tree.header` object. -/
structure HeaderData where
  source : Option (Nat × HSource)
  destination : Option String
  date : Option String
  time : Option String
  submitter : Option String
  file : Option String
  gedcom : Bool
  encoding : Option String
deriving DecidableEq, Repr

def emptyHeaderData : HeaderData :=
  HeaderData.mk none none none none none none false none

/-- A committed individual (`{id, ...data}`). -/
structure IndiRec where
  id : String
  d : IndiData
deriving DecidableEq, Repr

/-- A committed family (`{id, ...data}`). -/
structure FamRec where
  id : String
  d : FamData
deriving DecidableEq, Repr

/-- A committed note (`{id, text: data.text || id, ...data}`). -/
structure NoteRec where
  id : String
  text : String
  d : NoteData
deriving DecidableEq, Repr

/-- A committed submitter (`{id, ...data}`). -/
structure SubmRec where
  id : String
  d : SubmData
deriving DecidableEq, Repr

/-- The four entity maps of the tree, as association lists in Map
insertion order. -/
structure Tables where
  individuals : List (String × IndiRec)
  families : List (String × FamRec)
  notes : List (String × NoteRec)
  submitters : List (String × SubmRec)
deriving DecidableEq, Repr

def emptyTables : Tables := Tables.mk [] [] [] []

/-- `Map.prototype.set`: replace the entry of an existing key in place,
otherwise append. -/
def mapSet {α : Type} (m : List (String × α)) (k : String) (v : α) :
    List (String × α) :=
  match m with
  | [] => [(k, v)]
  | (k0, v0) :: rest =>
    if k0 = k then (k, v) :: rest else (k0, v0) :: mapSet rest k v

/-- `Map.prototype.get`. -/
def mapGet {α : Type} (m : List (String × α)) (k : String) : Option α :=
  match m with
  | [] => none
  | (k0, v0) :: rest => if k0 = k then some v0 else mapGet rest k

/-- A context-stack slot: the current record object, or the identity of
an aliased event / address / change-date / header-source object, or the
header gedcom object (which carries no readable field). -/
inductive Slot where
  | record
  | ev (n : Nat)
  | addr (n : Nat)
  | chan (n : Nat)
  | hsrc (n : Nat)
  | hged
deriving DecidableEq, Repr

/-- `this.stack[level] = slot` on a sparse JS array: pad missing indices
with holes. -/
def stackSet : List (Option Slot) → Nat → Option Slot → List (Option Slot)
  | [], 0, v => [v]
  | [], n + 1, v => none :: stackSet [] n v
  | _ :: xs, 0, v => v :: xs
  | x :: xs, n + 1, v => x :: stackSet xs n v

/-- The full parser state. -/
structure PState where
  header : HeaderData
  tabs : Tables
  currentRecord : Option CurRec
  currentEvent : Option (Nat × EventSt)
  stack : List (Option Slot)
  nextId : Nat
deriving DecidableEq, Repr

def initState : PState :=
  PState.mk emptyHeaderData emptyTables none none [] 0

/-- JS truthiness of an optional string (`undefined` and `''` are
falsy). -/
def strTruthy (o : Option String) : Bool :=
  match o with
  | some s => s ≠ ""
  | none => false

/-- `finalizeEvent(data)` for individual records: commit the provisional
event (empty components default to `''`) into the owning data and clear
`currentEvent`.  The pair is (updated data, cleared event). -/
def finalizeEvent (d : IndiData) (ce : Option (Nat × EventSt)) :
    IndiData × Option (Nat × EventSt) :=
  match ce with
  | none => (d, none)
  | some (_, ev) =>
    let d' :=
      if ev.etype = "BIRT" then
        { d with birth := some (BD.mk (ev.date.getD "") (ev.place.getD "")) }
      else if ev.etype = "DEAT" then
        { d with death := some (BD.mk (ev.date.getD "") (ev.place.getD "")) }
      else if ev.etype = "BAPM" then
        { d with baptism := some (BapSt.mk (ev.date.getD "") (ev.place.getD "")
                                    (ev.note.getD "")) }
      else if ev.etype = "FCOM" then
        { d with firstCommunion := some (BapSt.mk (ev.date.getD "")
                                    (ev.place.getD "") (ev.note.getD "")) }
      else if ev.etype = "GRAD" then
        { d with graduations := d.graduations ++
            [GradSt.mk (ev.eventType.getD "") (ev.date.getD "")
               (ev.place.getD "") (ev.note.getD "")] }
      else if ev.etype = "RESI" then
        { d with residences := d.residences ++
            [match ev.address with
             | some (aid, a) => ResiSt.mk (ev.date.getD "") (some aid) a
             | none => ResiSt.mk (ev.date.getD "") none (AddrSt.mk "" none none)] }
      else if ev.etype = "OBJE" then
        { d with objects := d.objects ++ [ev.title.getD ""] }
      else d
    (d', none)

/-- `finalizeFamilyEvent(data)`. -/
def finalizeFamilyEvent (d : FamData) (ce : Option (Nat × EventSt)) :
    FamData × Option (Nat × EventSt) :=
  match ce with
  | none => (d, none)
  | some (_, ev) =>
    let d' :=
      if ev.etype = "MARR" then
        { d with marriage := some (BD.mk (ev.date.getD "") (ev.place.getD "")) }
      else if ev.etype = "DIV" then
        { d with divorce := some (BD.mk (ev.date.getD "") (ev.place.getD "")) }
      else d
    (d', none)

/-- Append `'\n' + value` to the text of the last note item when that
text is truthy (`CONT` handling shared by individual and family
records). -/
def appendContToNotes (notes : List NoteItem) (value : String) : List NoteItem :=
  match notes.reverse with
  | [] => notes
  | lastNote :: _ =>
    match lastNote.text with
    | some t =>
      if t ≠ "" then
        notes.dropLast ++ [{ lastNote with text := some (t ++ "\n" ++ value) }]
      else notes
    | none => notes

/-- `NOTE` tag value handling shared by individual and family records:
an `@...@` value is a note reference, otherwise inline text. -/
def noteItemOf (value : String) : NoteItem :=
  if value.startsWith "@" ∧ value.endsWith "@" then NoteItem.mk (some value) none
  else NoteItem.mk none (some value)

/-- The result of a per-type tag handler: updated data plus the shared
`currentEvent`, stack and fresh-id counter. -/
structure IndiStep where
  d : IndiData
  ce : Option (Nat × EventSt)
  stack : List (Option Slot)
  nextId : Nat
deriving DecidableEq, Repr

/-- A `CITY`/`CTRY` write through an address stack slot: the address
object with identity `aid` is mutated wherever it is still live — as the
open event's address, or shared inside an already-committed residence. -/
def writeAddrField (aid : Nat) (f : AddrSt → AddrSt) (d : IndiData)
    (ce : Option (Nat × EventSt)) (stk : List (Option Slot)) (n : Nat) :
    IndiStep :=
  let inResidences : IndiData :=
    { d with residences := d.residences.map fun r =>
        if r.addrId = some aid then { r with address := f r.address } else r }
  match ce with
  | some (eid, ev) =>
    match ev.address with
    | some (aid2, a) =>
      if aid2 = aid then
        IndiStep.mk d (some (eid, { ev with address := some (aid2, f a) })) stk n
      else IndiStep.mk inResidences ce stk n
    | none => IndiStep.mk inResidences ce stk n
  | none => IndiStep.mk inResidences ce stk n

/-- `processIndividualTag`.  The `ADDR` case reads
`this.currentEvent.address` outside the null guard and therefore throws
a TypeError when no event is open; this is the error case. -/
def processIndividualTag (tag value : String) (level : Nat) (parent : Slot)
    (d : IndiData) (ce : Option (Nat × EventSt)) (stk : List (Option Slot))
    (n : Nat) : Except String IndiStep :=
  if tag = "NAME" then
    .ok (IndiStep.mk { d with name := some (parseName value) } ce stk n)
  else if tag = "SEX" then
    .ok (IndiStep.mk { d with sex := some value } ce stk n)
  else if tag = "BIRT" ∨ tag = "DEAT" ∨ tag = "BAPM" ∨ tag = "FCOM" ∨
          tag = "GRAD" ∨ tag = "RESI" then
    let d' := (finalizeEvent d ce).1
    .ok (IndiStep.mk d' (some (n, newEvent tag)) (stackSet stk level (some (.ev n))) (n + 1))
  else if tag = "DATE" then
    match ce with
    | some (eid, ev) => .ok (IndiStep.mk d (some (eid, { ev with date := some value })) stk n)
    | none => .ok (IndiStep.mk d ce stk n)
  else if tag = "PLAC" then
    match ce with
    | some (eid, ev) => .ok (IndiStep.mk d (some (eid, { ev with place := some value })) stk n)
    | none => .ok (IndiStep.mk d ce stk n)
  else if tag = "ADDR" then
    match ce with
    | some (eid, ev) =>
      .ok (IndiStep.mk d (some (eid, { ev with address := some (n, AddrSt.mk value none none) }))
            (stackSet stk level (some (.addr n))) (n + 1))
    | none => .error "TypeError: Cannot read properties of null (reading address)"
  else if tag = "CITY" then
    -- `parent.line !== undefined` holds only for address objects; the
    -- write mutates whichever live object carries that identity.
    (match parent with
     | .addr aid => .ok (writeAddrField aid (fun a => { a with city := some value }) d ce stk n)
     | _ => .ok (IndiStep.mk d ce stk n))
  else if tag = "CTRY" then
    (match parent with
     | .addr aid => .ok (writeAddrField aid (fun a => { a with country := some value }) d ce stk n)
     | _ => .ok (IndiStep.mk d ce stk n))
  else if tag = "TYPE" then
    match ce with
    | some (eid, ev) => .ok (IndiStep.mk d (some (eid, { ev with eventType := some value })) stk n)
    | none => .ok (IndiStep.mk d ce stk n)
  else if tag = "NOTE" then
    if value.startsWith "@" ∧ value.endsWith "@" then
      .ok (IndiStep.mk { d with notes := d.notes ++ [NoteItem.mk (some value) none] } ce stk n)
    else
      match ce with
      | some (eid, ev) => .ok (IndiStep.mk d (some (eid, { ev with note := some value })) stk n)
      | none => .ok (IndiStep.mk { d with notes := d.notes ++ [NoteItem.mk none (some value)] } ce stk n)
  else if tag = "CONT" then
    match ce with
    | some (eid, ev) =>
      if strTruthy ev.note then
        .ok (IndiStep.mk d (some (eid, { ev with note := some (ev.note.getD "" ++ "\n" ++ value) })) stk n)
      else
        .ok (IndiStep.mk { d with notes := appendContToNotes d.notes value } ce stk n)
    | none =>
      .ok (IndiStep.mk { d with notes := appendContToNotes d.notes value } ce stk n)
  else if tag = "FAMC" then
    let d' := (finalizeEvent d ce).1
    .ok (IndiStep.mk { d' with familiesAsChild := d'.familiesAsChild ++ [value] } none stk n)
  else if tag = "FAMS" then
    let d' := (finalizeEvent d ce).1
    .ok (IndiStep.mk { d' with familiesAsSpouse := d'.familiesAsSpouse ++ [value] } none stk n)
  else if tag = "OBJE" then
    let d' := (finalizeEvent d ce).1
    .ok (IndiStep.mk d' (some (n, newEvent "OBJE")) (stackSet stk level (some (.ev n))) (n + 1))
  else if tag = "TITL" then
    match ce with
    | some (eid, ev) =>
      if ev.etype = "OBJE" then
        .ok (IndiStep.mk d (some (eid, { ev with title := some value })) stk n)
      else .ok (IndiStep.mk d ce stk n)
    | none => .ok (IndiStep.mk d ce stk n)
  else if tag = "CHAN" then
    let d' := (finalizeEvent d ce).1
    .ok (IndiStep.mk { d' with changeDate := some (n, ChangeDate.mk none none) }
          none (stackSet stk level (some (.chan n))) (n + 1))
  else if tag = "TIME" then
    -- `parent.date !== undefined`: only a live event whose date was set
    -- (individual change-date objects never receive a date).
    (match parent with
     | .ev eid =>
       match ce with
       | some (eid2, ev) =>
         if eid2 = eid ∧ ev.date.isSome then
           .ok (IndiStep.mk d (some (eid2, { ev with time := some value })) stk n)
         else .ok (IndiStep.mk d ce stk n)
       | none => .ok (IndiStep.mk d ce stk n)
     | .chan cid =>
       match d.changeDate with
       | some (cid2, cd) =>
         if cid2 = cid ∧ cd.date.isSome then
           .ok (IndiStep.mk { d with changeDate := some (cid2, { cd with time := some value }) } ce stk n)
         else .ok (IndiStep.mk d ce stk n)
       | none => .ok (IndiStep.mk d ce stk n)
     | _ => .ok (IndiStep.mk d ce stk n))
  else
    .ok (IndiStep.mk d ce stk n)

/-- The result of the family tag handler. -/
structure FamStep where
  d : FamData
  ce : Option (Nat × EventSt)
  stack : List (Option Slot)
  nextId : Nat
deriving DecidableEq, Repr

/-- `processFamilyTag`. -/
def processFamilyTag (tag value : String) (level : Nat) (parent : Slot)
    (d : FamData) (ce : Option (Nat × EventSt)) (stk : List (Option Slot))
    (n : Nat) : FamStep :=
  if tag = "HUSB" then
    FamStep.mk { d with husband := some value } ce stk n
  else if tag = "WIFE" then
    FamStep.mk { d with wife := some value } ce stk n
  else if tag = "CHIL" then
    FamStep.mk { d with children := d.children ++ [value] } ce stk n
  else if tag = "MARR" ∨ tag = "DIV" then
    let d' := (finalizeFamilyEvent d ce).1
    FamStep.mk d' (some (n, newEvent tag)) (stackSet stk level (some (.ev n))) (n + 1)
  else if tag = "DATE" then
    match ce with
    | some (eid, ev) => FamStep.mk d (some (eid, { ev with date := some value })) stk n
    | none => FamStep.mk d ce stk n
  else if tag = "PLAC" then
    match ce with
    | some (eid, ev) => FamStep.mk d (some (eid, { ev with place := some value })) stk n
    | none => FamStep.mk d ce stk n
  else if tag = "NCHI" then
    FamStep.mk { d with numberOfChildren := some (jsParseIntOr0 value) } ce stk n
  else if tag = "NOTE" then
    FamStep.mk { d with notes := d.notes ++ [noteItemOf value] } ce stk n
  else if tag = "CONT" then
    FamStep.mk { d with notes := appendContToNotes d.notes value } ce stk n
  else if tag = "CHAN" then
    let d' := (finalizeFamilyEvent d ce).1
    FamStep.mk { d' with changeDate := some (n, ChangeDate.mk none none) }
      none (stackSet stk level (some (.chan n))) (n + 1)
  else if tag = "TIME" then
    -- `parent.date !== undefined`: a live event whose date was set
    -- (family change-date objects never receive a date).
    (match parent with
     | .ev eid =>
       match ce with
       | some (eid2, ev) =>
         if eid2 = eid ∧ ev.date.isSome then
           FamStep.mk d (some (eid2, { ev with time := some value })) stk n
         else FamStep.mk d ce stk n
       | none => FamStep.mk d ce stk n
     | .chan cid =>
       match d.changeDate with
       | some (cid2, cd) =>
         if cid2 = cid ∧ cd.date.isSome then
           FamStep.mk { d with changeDate := some (cid2, { cd with time := some value }) } ce stk n
         else FamStep.mk d ce stk n
       | none => FamStep.mk d ce stk n
     | _ => FamStep.mk d ce stk n)
  else
    FamStep.mk d ce stk n

/-- The result of the note/submitter tag handlers: data plus the
record-object date/time fields (which are dropped at finalization). -/
structure NoteStep where
  text : Option String
  changeDate : Option (Nat × ChangeDate)
  recDate : Option String
  recTime : Option String
  stack : List (Option Slot)
  nextId : Nat
deriving DecidableEq, Repr

/-- `processNoteTag`.  `DATE` writes to any parent other than the data
object: to the record object (its slot) or to the live change-date
object; `TIME` needs `parent.date` defined first. -/
def processNoteTag (tag value : String) (level : Nat) (parent : Slot)
    (d : NoteData) (recDate recTime : Option String)
    (stk : List (Option Slot)) (n : Nat) : NoteStep :=
  if tag = "CONT" then
    NoteStep.mk (some (d.text.getD "" ++ "\n" ++ value)) d.changeDate recDate recTime stk n
  else if tag = "CHAN" then
    NoteStep.mk d.text (some (n, ChangeDate.mk none none)) recDate recTime
      (stackSet stk level (some (.chan n))) (n + 1)
  else if tag = "DATE" then
    (match parent with
     | .record => NoteStep.mk d.text d.changeDate (some value) recTime stk n
     | .chan cid =>
       match d.changeDate with
       | some (cid2, cd) =>
         if cid2 = cid then
           NoteStep.mk d.text (some (cid2, { cd with date := some value })) recDate recTime stk n
         else NoteStep.mk d.text d.changeDate recDate recTime stk n
       | none => NoteStep.mk d.text d.changeDate recDate recTime stk n
     | _ => NoteStep.mk d.text d.changeDate recDate recTime stk n)
  else if tag = "TIME" then
    (match parent with
     | .record =>
       if recDate.isSome then NoteStep.mk d.text d.changeDate recDate (some value) stk n
       else NoteStep.mk d.text d.changeDate recDate recTime stk n
     | .chan cid =>
       match d.changeDate with
       | some (cid2, cd) =>
         if cid2 = cid ∧ cd.date.isSome then
           NoteStep.mk d.text (some (cid2, { cd with time := some value })) recDate recTime stk n
         else NoteStep.mk d.text d.changeDate recDate recTime stk n
       | none => NoteStep.mk d.text d.changeDate recDate recTime stk n
     | _ => NoteStep.mk d.text d.changeDate recDate recTime stk n)
  else
    NoteStep.mk d.text d.changeDate recDate recTime stk n

/-- The result of the submitter tag handler. -/
structure SubmStep where
  name : Option String
  changeDate : Option (Nat × ChangeDate)
  recDate : Option String
  recTime : Option String
  stack : List (Option Slot)
  nextId : Nat
deriving DecidableEq, Repr

/-- `processSubmitterTag`: like the note handler with `NAME` instead of
`CONT`. -/
def processSubmitterTag (tag value : String) (level : Nat) (parent : Slot)
    (d : SubmData) (recDate recTime : Option String)
    (stk : List (Option Slot)) (n : Nat) : SubmStep :=
  if tag = "NAME" then
    SubmStep.mk (some value) d.changeDate recDate recTime stk n
  else if tag = "CHAN" then
    SubmStep.mk d.name (some (n, ChangeDate.mk none none)) recDate recTime
      (stackSet stk level (some (.chan n))) (n + 1)
  else if tag = "DATE" then
    (match parent with
     | .record => SubmStep.mk d.name d.changeDate (some value) recTime stk n
     | .chan cid =>
       match d.changeDate with
       | some (cid2, cd) =>
         if cid2 = cid then
           SubmStep.mk d.name (some (cid2, { cd with date := some value })) recDate recTime stk n
         else SubmStep.mk d.name d.changeDate recDate recTime stk n
       | none => SubmStep.mk d.name d.changeDate recDate recTime stk n
     | _ => SubmStep.mk d.name d.changeDate recDate recTime stk n)
  else if tag = "TIME" then
    (match parent with
     | .record =>
       if recDate.isSome then SubmStep.mk d.name d.changeDate recDate (some value) stk n
       else SubmStep.mk d.name d.changeDate recDate recTime stk n
     | .chan cid =>
       match d.changeDate with
       | some (cid2, cd) =>
         if cid2 = cid ∧ cd.date.isSome then
           SubmStep.mk d.name (some (cid2, { cd with time := some value })) recDate recTime stk n
         else SubmStep.mk d.name d.changeDate recDate recTime stk n
       | none => SubmStep.mk d.name d.changeDate recDate recTime stk n
     | _ => SubmStep.mk d.name d.changeDate recDate recTime stk n)
  else
    SubmStep.mk d.name d.changeDate recDate recTime stk n

/-- The result of the header tag handler. -/
structure HeadStep where
  header : HeaderData
  stack : List (Option Slot)
  nextId : Nat
deriving DecidableEq, Repr

/-- `processHeaderTag`.  `VERS`/`NAME`/`CORP`/`ADDR` require
`parent.name !== undefined`, which only the header source object
satisfies; the `parent.gedcom !== undefined` branches of `VERS`/`FORM`
are dead because no stack-reachable object carries a `gedcom` field;
`DATE` requires the parent to be the record object itself; `TIME` is
unconditional. -/
def processHeaderTag (tag value : String) (level : Nat) (parent : Slot)
    (h : HeaderData) (stk : List (Option Slot)) (n : Nat) : HeadStep :=
  if tag = "SOUR" then
    HeadStep.mk { h with source := some (n, HSource.mk value none none none) }
      (stackSet stk level (some (.hsrc n))) (n + 1)
  else if tag = "VERS" then
    (match parent with
     | .hsrc sid =>
       match h.source with
       | some (sid2, src) =>
         if sid2 = sid then
           HeadStep.mk { h with source := some (sid2, { src with version := some value }) } stk n
         else HeadStep.mk h stk n
       | none => HeadStep.mk h stk n
     | _ => HeadStep.mk h stk n)
  else if tag = "NAME" then
    (match parent with
     | .hsrc sid =>
       match h.source with
       | some (sid2, src) =>
         if sid2 = sid then
           HeadStep.mk { h with source := some (sid2, { src with name := value }) } stk n
         else HeadStep.mk h stk n
       | none => HeadStep.mk h stk n
     | _ => HeadStep.mk h stk n)
  else if tag = "CORP" then
    (match parent with
     | .hsrc sid =>
       match h.source with
       | some (sid2, src) =>
         if sid2 = sid then
           HeadStep.mk { h with source := some (sid2, { src with corporation := some value }) } stk n
         else HeadStep.mk h stk n
       | none => HeadStep.mk h stk n
     | _ => HeadStep.mk h stk n)
  else if tag = "ADDR" then
    (match parent with
     | .hsrc sid =>
       match h.source with
       | some (sid2, src) =>
         if sid2 = sid then
           HeadStep.mk { h with source := some (sid2, { src with address := some value }) } stk n
         else HeadStep.mk h stk n
       | none => HeadStep.mk h stk n
     | _ => HeadStep.mk h stk n)
  else if tag = "DEST" then
    HeadStep.mk { h with destination := some value } stk n
  else if tag = "DATE" then
    (match parent with
     | .record => HeadStep.mk { h with date := some value } stk n
     | _ => HeadStep.mk h stk n)
  else if tag = "TIME" then
    HeadStep.mk { h with time := some value } stk n
  else if tag = "SUBM" then
    HeadStep.mk { h with submitter := some value } stk n
  else if tag = "FILE" then
    HeadStep.mk { h with file := some value } stk n
  else if tag = "GEDC" then
    HeadStep.mk { h with gedcom := true } (stackSet stk level (some .hged)) n
  else if tag = "FORM" then
    HeadStep.mk h stk n
  else if tag = "CHAR" then
    HeadStep.mk { h with encoding := some value } stk n
  else
    HeadStep.mk h stk n

/-- `finalizeCurrentRecord`: commit the open record (after finalizing
any pending event and defaulting a missing individual name) into its
map, then clear the record, event and stack.  A `null` record is a
no-op. -/
def finalizeCurrentRecord (s : PState) : PState :=
  match s.currentRecord with
  | none => s
  | some r =>
    let cleared := fun (s' : PState) =>
      { s' with currentRecord := none, currentEvent := none,
                stack := ([] : List (Option Slot)) }
    match r with
    | .header => cleared s
    | .indi id d =>
      let d' := (finalizeEvent d s.currentEvent).1
      let d'' := if d'.name = none then { d' with name := some (parseName "") } else d'
      cleared { s with tabs := { s.tabs with
        individuals := mapSet s.tabs.individuals id (IndiRec.mk id d'') } }
    | .fam id d =>
      let d' := (finalizeFamilyEvent d s.currentEvent).1
      cleared { s with tabs := { s.tabs with
        families := mapSet s.tabs.families id (FamRec.mk id d') } }
    | .note id d _ _ =>
      let noteText := match d.text with
        | some t => if t ≠ "" then t else id
        | none => id
      cleared { s with tabs := { s.tabs with
        notes := mapSet s.tabs.notes id (NoteRec.mk id noteText d) } }
    | .subm id d _ _ =>
      cleared { s with tabs := { s.tabs with
        submitters := mapSet s.tabs.submitters id (SubmRec.mk id d) } }
    | .other _ _ => cleared s

/-- The record opened by a level-0 line, if any (`HEAD` opens the
header, `TRLR` opens nothing, an xref opens a typed record keyed by the
xref, a bare `SUBM` opens a submitter keyed by the value). -/
def openedRecOf (L : GLine) : Option CurRec :=
  if L.tag = "HEAD" then some .header
  else if L.tag = "TRLR" then none
  else
    match L.xref with
    | some x =>
      if L.tag = "INDI" then some (.indi x emptyIndiData)
      else if L.tag = "FAM" then some (.fam x emptyFamData)
      else if L.tag = "NOTE" then some (.note x emptyNoteData none none)
      else if L.tag = "SUBM" then some (.subm x emptySubmData none none)
      else some (.other L.tag x)
    | none =>
      if L.tag = "SUBM" then some (.subm L.value emptySubmData none none)
      else none

/-- `processLine` on one tokenized line.  At level 0: finalize, then
open the new record and reset the stack to `[currentRecord]` (`TRLR`
finalizes a second time — a no-op — and returns before the stack
assignment).  At a positive level: ignore the line unless a record is
open and `stack[level-1]` is a non-hole slot, then dispatch on the
record type. -/
def stepLine (s : PState) (L : GLine) : Except String PState :=
  if L.level = 0 then
    let s1 := finalizeCurrentRecord s
    if L.tag = "TRLR" then .ok (finalizeCurrentRecord s1)
    else
      let r := openedRecOf L
      .ok { s1 with currentRecord := r,
                    stack := [if r.isSome then some Slot.record else none] }
  else
    match s.currentRecord with
    | none => .ok s
    | some r =>
      match (s.stack.getD (L.level - 1) none) with
      | none => .ok s
      | some parent =>
        match r with
        | .indi id d =>
          match processIndividualTag L.tag L.value L.level parent d
              s.currentEvent s.stack s.nextId with
          | .ok st =>
            .ok { s with currentRecord := some (.indi id st.d),
                         currentEvent := st.ce, stack := st.stack,
                         nextId := st.nextId }
          | .error e => .error e
        | .fam id d =>
          let st := processFamilyTag L.tag L.value L.level parent d
              s.currentEvent s.stack s.nextId
          .ok { s with currentRecord := some (.fam id st.d),
                       currentEvent := st.ce, stack := st.stack,
                       nextId := st.nextId }
        | .note id d rd rt =>
          let st := processNoteTag L.tag L.value L.level parent d rd rt
              s.stack s.nextId
          .ok { s with currentRecord := some (.note id
                  (NoteData.mk st.text st.changeDate) st.recDate st.recTime),
                       stack := st.stack, nextId := st.nextId }
        | .header =>
          let st := processHeaderTag L.tag L.value L.level parent s.header
              s.stack s.nextId
          .ok { s with header := st.header, stack := st.stack,
                       nextId := st.nextId }
        | .subm id d rd rt =>
          let st := processSubmitterTag L.tag L.value L.level parent d rd rt
              s.stack s.nextId
          .ok { s with currentRecord := some (.subm id
                  (SubmData.mk st.name st.changeDate) st.recDate st.recTime),
                       stack := st.stack, nextId := st.nextId }
        | .other _ _ => .ok s

/-- Run the assembler from a given state over a tokenized line stream. -/
def runFrom (s : PState) : List GLine → Except String PState
  | [] => .ok s
  | L :: ls =>
    match stepLine s L with
    | .ok s' => runFrom s' ls
    | .error e => .error e

/-- The line loop of `GedcomParser.parse` on an already-tokenized
stream: note there is no finalization after the last line. -/
def runLines (ls : List GLine) : Except String PState :=
  runFrom initState ls

/-- The line loop of `GedcomParser.parse` on raw text lines: tokenize
each line, skip blank and unparseable ones, process the rest. -/
def runRawLines (s : PState) : List String → Except String PState
  | [] => .ok s
  | line :: ls =>
    match parseLine line with
    | .tok t =>
      match stepLine s t with
      | .ok s' => runRawLines s' ls
      | .error e => .error e
    | _ => runRawLines s ls

/-! ## Genealogical graph model (`src/models/Tree.js`) -/

/-- The tree model wrapping the parsed maps. -/
structure GTree where
  header : HeaderData
  individuals : List (String × IndiRec)
  families : List (String × FamRec)
  notes : List (String × NoteRec)
  submitters : List (String × SubmRec)
deriving DecidableEq, Repr

/-- `Tree.getIndividual`. -/
def getIndividual (t : GTree) (id : String) : Option IndiRec :=
  mapGet t.individuals id

/-- `Tree.getFamily`. -/
def getFamily (t : GTree) (id : String) : Option FamRec :=
  mapGet t.families id

/-- A `{relation, individual}` entry returned by `getParents`. -/
structure ParentEntry where
  relation : String
  individual : IndiRec
deriving DecidableEq, Repr

/-- `!visited || !visited.has(id)`: the visited-set guard (a `none`
visited parameter is the JS `null` default). -/
def visitedAllows (visited : Option (List String)) (id : String) : Bool :=
  match visited with
  | none => true
  | some vs => !vs.contains id

/-- JS truthiness check `family.husband` / `family.wife` (an empty
string is falsy). -/
def spouseTruthy (o : Option String) : Bool :=
  match o with
  | some s => s ≠ ""
  | none => false

/-- The per-family body of the `getParents` loop: push the resolvable,
unvisited husband then wife of each resolvable family. -/
def collectParents (t : GTree) (visited : Option (List String)) :
    List String → List ParentEntry
  | [] => []
  | familyId :: rest =>
    (match getFamily t familyId with
     | none => []
     | some fam =>
       (if spouseTruthy fam.d.husband then
          match getIndividual t (fam.d.husband.getD "") with
          | some father =>
            if visitedAllows visited father.id then [ParentEntry.mk "father" father] else []
          | none => []
        else []) ++
       (if spouseTruthy fam.d.wife then
          match getIndividual t (fam.d.wife.getD "") with
          | some mother =>
            if visitedAllows visited mother.id then [ParentEntry.mk "mother" mother] else []
          | none => []
        else [])) ++ collectParents t visited rest

/-- `Tree.getParents(individualId, visited)`: an unknown individual (or
one with no family-as-child links) yields the empty list; dangling
family or parent references are skipped; a visited parent is filtered
out. -/
def getParents (t : GTree) (individualId : String)
    (visited : Option (List String)) : List ParentEntry :=
  match getIndividual t individualId with
  | none => []
  | some ind => collectParents t visited ind.d.familiesAsChild

/-- The per-family body of the `getChildren` loop. -/
def collectChildren (t : GTree) (visited : Option (List String)) :
    List String → List IndiRec
  | [] => []
  | familyId :: rest =>
    (match getFamily t familyId with
     | none => []
     | some fam =>
       fam.d.children.filterMap fun childId =>
         match getIndividual t childId with
         | some child =>
           if visitedAllows visited child.id then some child else none
         | none => none) ++ collectChildren t visited rest

/-- `Tree.getChildren(individualId, visited)`. -/
def getChildren (t : GTree) (individualId : String)
    (visited : Option (List String)) : List IndiRec :=
  match getIndividual t individualId with
  | none => []
  | some ind => collectChildren t visited ind.d.familiesAsSpouse

/-- A `{family, individual}` entry returned by `getSpouses`. -/
structure SpouseEntry where
  family : String
  individual : IndiRec
deriving DecidableEq, Repr

/-- The per-family body of the `getSpouses` loop. -/
def collectSpouses (t : GTree) (individualId : String) :
    List String → List SpouseEntry
  | [] => []
  | familyId :: rest =>
    (match getFamily t familyId with
     | none => []
     | some fam =>
       if fam.d.husband = some individualId ∧ spouseTruthy fam.d.wife then
         match getIndividual t (fam.d.wife.getD "") with
         | some spouse => [SpouseEntry.mk familyId spouse]
         | none => []
       else if fam.d.wife = some individualId ∧ spouseTruthy fam.d.husband then
         match getIndividual t (fam.d.husband.getD "") with
         | some spouse => [SpouseEntry.mk familyId spouse]
         | none => []
       else []) ++ collectSpouses t individualId rest

/-- `Tree.getSpouses(individualId)`. -/
def getSpouses (t : GTree) (individualId : String) : List SpouseEntry :=
  match getIndividual t individualId with
  | none => []
  | some ind => collectSpouses t individualId ind.d.familiesAsSpouse

/-- The per-family body of the `getSiblings` loop. -/
def collectSiblings (t : GTree) (individualId : String) :
    List String → List IndiRec
  | [] => []
  | familyId :: rest =>
    (match getFamily t familyId with
     | none => []
     | some fam =>
       fam.d.children.filterMap fun siblingId =>
         if siblingId ≠ individualId then getIndividual t siblingId
         else none) ++ collectSiblings t individualId rest

/-- `Tree.getSiblings(individualId)`. -/
def getSiblings (t : GTree) (individualId : String) : List IndiRec :=
  match getIndividual t individualId with
  | none => []
  | some ind => collectSiblings t individualId ind.d.familiesAsChild

/-! The bounded-depth ancestor traversal (`Formatter.formatAncestors`):
depth guard, visited guard, `visited.add`, `getParents` with the visited
set, then recursion over the parents threading the (in JS, mutated in
place) visited set.  `fuel` is `maxDepth - currentDepth`.  The second
component of the result is the list of node ids processed (printed), in
order. -/

mutual

/-- One `formatAncestors` call: returns the updated visited set and the
ids processed. -/
def ancestorVisit : Nat → GTree → IndiRec → List String →
    List String × List String
  | 0, _, _, visited => (visited, [])
  | fuel + 1, t, ind, visited =>
    if ind.id ∈ visited then (visited, [])
    else
      let v1 := ind.id :: visited
      let r := ancestorFold fuel t (getParents t ind.id (some v1)) v1
      (r.1, ind.id :: r.2)
termination_by fuel _ _ _ => (fuel, 0)

/-- The loop over the parent entries, threading the visited set. -/
def ancestorFold : Nat → GTree → List ParentEntry → List String →
    List String × List String
  | _, _, [], visited => (visited, [])
  | fuel, t, p :: ps, visited =>
    let r1 := ancestorVisit fuel t p.individual visited
    let r2 := ancestorFold fuel t ps r1.1
    (r2.1, r1.2 ++ r2.2)
termination_by fuel _ ps _ => (fuel, ps.length + 1)

end

/-! ## Projections used to state the record-assembler invariants -/

/-- The committed individual keys, in insertion order. -/
def indiKeys (s : PState) : List String := s.tabs.individuals.map Prod.fst

def famKeys (s : PState) : List String := s.tabs.families.map Prod.fst

def noteKeys (s : PState) : List String := s.tabs.notes.map Prod.fst

def submKeys (s : PState) : List String := s.tabs.submitters.map Prod.fst

/-- The id of the open individual record, if any. -/
def openIndiId (s : PState) : List String :=
  match s.currentRecord with
  | some (.indi id _) => [id]
  | _ => []

def openFamId (s : PState) : List String :=
  match s.currentRecord with
  | some (.fam id _) => [id]
  | _ => []

def openNoteId (s : PState) : List String :=
  match s.currentRecord with
  | some (.note id _ _ _) => [id]
  | _ => []

def openSubmId (s : PState) : List String :=
  match s.currentRecord with
  | some (.subm id _ _ _) => [id]
  | _ => []

/-- The ids of the individual records opened by the level-0 lines of a
stream, in order. -/
def openedIndiIds (ls : List GLine) : List String :=
  ls.filterMap fun L =>
    if L.level = 0 then
      match openedRecOf L with
      | some (.indi id _) => some id
      | _ => none
    else none

def openedFamIds (ls : List GLine) : List String :=
  ls.filterMap fun L =>
    if L.level = 0 then
      match openedRecOf L with
      | some (.fam id _) => some id
      | _ => none
    else none

def openedNoteIds (ls : List GLine) : List String :=
  ls.filterMap fun L =>
    if L.level = 0 then
      match openedRecOf L with
      | some (.note id _ _ _) => some id
      | _ => none
    else none

def openedSubmIds (ls : List GLine) : List String :=
  ls.filterMap fun L =>
    if L.level = 0 then
      match openedRecOf L with
      | some (.subm id _ _ _) => some id
      | _ => none
    else none

/-- The assembler invariant: for each entity type, the committed keys
followed by the open record id are exactly the ids opened so far. -/
def AssemblerInv (p : List GLine) (s : PState) : Prop :=
  indiKeys s ++ openIndiId s = openedIndiIds p ∧
  famKeys s ++ openFamId s = openedFamIds p ∧
  noteKeys s ++ openNoteId s = openedNoteIds p ∧
  submKeys s ++ openSubmId s = openedSubmIds p

/-! ## Concrete demonstration inputs for the claim witnesses -/

/-- A buffer whose header declares `1 CHAR ANSEL` and that contains a
combining-range byte. -/
def anselDemoBuf : List Nat :=
  asciiBytes "0 HEAD\n1 CHAR ANSEL\n0 TRLR\n" ++ [0xE5]

/-- A tokenized stream opening two distinct individuals; the split point
is right after `@I1@` has been committed. -/
def c2l1 : List GLine :=
  [GLine.mk 0 (some "@I1@") "INDI" "", GLine.mk 1 none "SEX" "M",
   GLine.mk 0 (some "@I2@") "INDI" ""]

def c2l2 : List GLine :=
  [GLine.mk 1 none "SEX" "F", GLine.mk 0 none "TRLR" ""]

def c2demo : List GLine := c2l1 ++ c2l2

def c2s1 : PState := (runLines c2l1).toOption.getD initState

def c2s2 : PState := (runLines c2demo).toOption.getD initState

/-- A stream that opens the same individual id twice with conflicting
data. -/
def c2dup : List GLine :=
  [GLine.mk 0 (some "@I1@") "INDI" "", GLine.mk 1 none "SEX" "M",
   GLine.mk 0 (some "@I1@") "INDI" "", GLine.mk 1 none "SEX" "F",
   GLine.mk 0 none "TRLR" ""]

/-- The prefix of `c2dup` after which `@I1@` is first committed. -/
def c2dupPrefix : List GLine := c2dup.take 3

/-- The sex recorded for an id after running a stream (`none` layers
distinguish parse failure / missing entry). -/
def sexAfter (ls : List GLine) (k : String) : Option (Option (Option String)) :=
  (runLines ls).toOption.map fun s =>
    (mapGet s.tabs.individuals k).map fun r => r.d.sex

/-- A stream that opens an individual and a dateless `BIRT` event and
then simply ends (no `TRLR`, no further level-0 line). -/
def c6eof : List GLine :=
  [GLine.mk 0 (some "@I1@") "INDI" "", GLine.mk 1 none "BIRT" ""]

/-- The assembler state at the end of `c6eof`: the record is still open
with a pending empty `BIRT` event. -/
def c6s : PState := (runLines c6eof).toOption.getD initState

/-- A two-person tree with an artificial ancestry cycle: `@I1@`'s parent
family lists `@I2@` as husband, and `@I2@`'s parent family lists `@I1@`
as husband. -/
def cycIndi (id : String) (famc fams : List String) : IndiRec :=
  IndiRec.mk id
    { emptyIndiData with familiesAsChild := famc, familiesAsSpouse := fams }

def cycTree : GTree :=
  GTree.mk emptyHeaderData
    [("@I1@", cycIndi "@I1@" ["@F1@"] ["@F2@"]),
     ("@I2@", cycIndi "@I2@" ["@F2@"] ["@F1@"])]
    [("@F1@", FamRec.mk "@F1@"
        { emptyFamData with husband := some "@I2@", children := ["@I1@"] }),
     ("@F2@", FamRec.mk "@F2@"
        { emptyFamData with husband := some "@I1@", children := ["@I2@"] })]
    [] []

/-! ## Shared helper lemmas -/

theorem mapGet_mapSet_self {α : Type} (m : List (String × α)) (k : String)
    (v : α) : mapGet (mapSet m k v) k = some v := by
  induction m with
  | nil => simp [mapSet, mapGet]
  | cons h rest ih =>
    obtain ⟨k0, v0⟩ := h
    by_cases hk : k0 = k <;> simp [mapSet, mapGet, hk, ih]

theorem mapGet_mapSet_ne {α : Type} (m : List (String × α)) (k k' : String)
    (v : α) (h : k' ≠ k) : mapGet (mapSet m k v) k' = mapGet m k' := by
  induction m with
  | nil => simp [mapSet, mapGet, Ne.symm h]
  | cons hd rest ih =>
    obtain ⟨k0, v0⟩ := hd
    by_cases hk : k0 = k
    · subst hk
      simp [mapSet, mapGet, h, Ne.symm h]
    · simp only [mapSet, if_neg hk, mapGet]
      by_cases hk' : k0 = k' <;> simp [hk', ih]

theorem mapGet_mem_keys {α : Type} (m : List (String × α)) (k : String)
    (v : α) (h : mapGet m k = some v) : k ∈ m.map Prod.fst := by
  induction m with
  | nil => simp [mapGet] at h
  | cons hd rest ih =>
    obtain ⟨k0, v0⟩ := hd
    by_cases hk : k0 = k
    · simp [hk]
    · simp only [mapGet, if_neg hk] at h
      simp [ih h]

theorem mapSet_eq_append {α : Type} (m : List (String × α)) (k : String)
    (v : α) (h : k ∉ m.map Prod.fst) : mapSet m k v = m ++ [(k, v)] := by
  induction m with
  | nil => simp [mapSet]
  | cons hd rest ih =>
    obtain ⟨k0, v0⟩ := hd
    simp only [List.map_cons, List.mem_cons] at h
    push_neg at h
    simp [mapSet, Ne.symm h.1, ih h.2]

theorem empty_string_append (s : String) : "" ++ s = s := by
  cases s
  rfl

/-! ## Claim theorems -/

/-- C3: `parseGedcomDate` strips an optional leading modifier and an
optional trailing 2–4 letter non-month calendar suffix (defaulting the
calendar to GREGORIAN) and matches DAY MONTH YEAR, then MONTH YEAR, then
YEAR: "20 JUN 1979" gives a full Gregorian date, "ABT 10191 AG" gives an
"AG"-calendar year with modifier "ABT" and month/day defaulting to 1,
"JUN 1979" defaults the day to 1, and "1979" defaults month and day to
1. -/
theorem C3_parseGedcomDate_spec :
    parseGedcomDate "20 JUN 1979" =
      some (PDate.mk "GREGORIAN" 1979 6 20 none "20 JUN 1979") ∧
    parseGedcomDate "ABT 10191 AG" =
      some (PDate.mk "AG" 10191 1 1 (some "ABT") "ABT 10191 AG") ∧
    parseGedcomDate "JUN 1979" =
      some (PDate.mk "GREGORIAN" 1979 6 1 none "JUN 1979") ∧
    parseGedcomDate "1979" =
      some (PDate.mk "GREGORIAN" 1979 1 1 none "1979") := by
  refine ⟨?_, ?_, ?_, ?_⟩ <;> decide

/-- C4: `calculateYearDifference` returns null whenever the two parsed
dates carry different calendar tags, and returns null when either
argument is null; it never produces a numeric result in those cases. -/
theorem C4_calculateYearDifference_null (f t : PDate)
    (h : f.calendar ≠ t.calendar) :
    calculateYearDifference (some f) (some t) = none ∧
    (∀ d, calculateYearDifference none d = none ∧
          calculateYearDifference d none = none) := by
  constructor
  · simp [calculateYearDifference, h]
  · intro d
    cases d <;> simp [calculateYearDifference]

/-- Witness for C4 at a GREGORIAN and an "AG" date. -/
theorem C4_calculateYearDifference_null_witness :
    calculateYearDifference
      (some (PDate.mk "GREGORIAN" 1900 1 1 none "1900"))
      (some (PDate.mk "AG" 10191 1 1 none "10191 AG")) = none :=
  (C4_calculateYearDifference_null
    (PDate.mk "GREGORIAN" 1900 1 1 none "1900")
    (PDate.mk "AG" 10191 1 1 none "10191 AG") (by decide)).1

/-- The `ANSEL_COMBINING` table covers the whole combining range. -/
theorem anselCombining_isSome (b : Nat) (h1 : 0xE0 ≤ b) (h2 : b ≤ 0xFE) :
    (anselCombining b).isSome := by
  interval_cases b <;> decide

/-- C5 (code bug): the decoder does consume a combining-range byte and
its successor as a (mark, base) pair — the table entry for
(0xE2, 'a') is consulted and its value emitted, advancing two bytes —
but the `ANSEL_PRECOMPOSED` string literals are encoding-corrupted in
the source, so 0xE2 0x61 decodes to the two-character mojibake string
U+0413 U+040E (the UTF-8 bytes of the evidently intended precomposed
"á" mis-decoded as cp1251, as the table's own "acute" comment shows)
rather than to the single precomposed character "á" the claim states;
the fallback branch for a mark with no precomposed entry does emit the
base character followed by the mark's combining codepoint, as in
0xE0 0x61. -/
theorem C5_decodeAnsel_precomposed_bug :
    anselPrecomposed 0xE2 (Char.ofNat 0x61) =
      some (String.mk [Char.ofNat 0x0413, Char.ofNat 0x040E]) ∧
    decodeAnsel [0xE2, 0x61] = String.mk [Char.ofNat 0x0413, Char.ofNat 0x040E] ∧
    decodeAnsel [0xE2, 0x61] ≠ "á" ∧
    decodeAnsel [0xE0, 0x61] = String.mk [Char.ofNat 0x61, Char.ofNat 0x0309] := by
  refine ⟨by decide, by decide, by decide, by decide⟩

/-- C10: a byte in 0x80..0x9F at which the decoder stands (i.e. one not
consumed as the second byte of a mark/base pair) is silently omitted
from the output: it is neither passed through nor substituted, because
the pass-through branches only emit bytes below 0x80 or at/above
0xA0. -/
theorem C10_decodeAnsel_drops_80_9F (b : Nat) (rest : List Nat)
    (h1 : 0x80 ≤ b) (h2 : b ≤ 0x9F) :
    decodeAnsel (b :: rest) = decodeAnsel rest := by
  have hrange : ¬ (0xE0 ≤ b ∧ b ≤ 0xFE) := by omega
  have hpass : anselPass b = "" := by
    unfold anselPass
    rw [if_neg (by omega), if_neg (by omega)]
  cases rest with
  | nil => simp [decodeAnsel, hpass]
  | cons b2 r =>
    simp [decodeAnsel, hrange, hpass, empty_string_append]

/-- Witness for C10 at the byte 0x85. -/
theorem C10_decodeAnsel_drops_80_9F_witness :
    decodeAnsel [0x85, 0x41] = decodeAnsel [0x41] :=
  C10_decodeAnsel_drops_80_9F 0x85 [0x41] (by decide) (by decide)

/-- Counterexample to C1: a buffer whose bounded ASCII prefix contains
no `1 CHAR <token>` match is decoded with the initial UTF-8 default, not
with the Latin-1-style fallback the claim asserts for an absent
token. -/
theorem C1_counterexample :
    resolveEncoding (asciiBytes "0 HEAD\n1 SOUR X\n0 TRLR\n") =
      DecodeStrategy.utf8 ∧
    DecodeStrategy.utf8 ≠ DecodeStrategy.latin1 := by
  exact ⟨by decide, by decide⟩

/-- C1 (amended): the decode strategy is chosen solely from the
`1 CHAR <token>` match in the bounded ASCII prefix: a declared
UTF-8/UNICODE/UTF8 token yields a UTF-8 decode regardless of byte
content; a declared ANSEL token yields an ANSEL decode exactly when a
byte in 0xE0..0xFE appears in the bounded scan window and a Latin-1
decode otherwise; a present but unrecognized token yields the Latin-1
fallback; an absent token leaves the initial UTF-8 default in force;
and the resolver is total (it never fails or throws). -/
theorem C1_resolveEncoding_amended (buffer : List Nat) :
    (findCharToken (asciiPreview buffer) = none →
      resolveEncoding buffer = DecodeStrategy.utf8) ∧
    (∀ tok, findCharToken (asciiPreview buffer) = some tok →
      ((jsUpper (String.mk tok) = "UTF-8" ∨ jsUpper (String.mk tok) = "UNICODE" ∨
        jsUpper (String.mk tok) = "UTF8") →
          resolveEncoding buffer = DecodeStrategy.utf8) ∧
      (jsUpper (String.mk tok) = "ANSEL" → isAnsel buffer = true →
          resolveEncoding buffer = DecodeStrategy.ansel) ∧
      (jsUpper (String.mk tok) = "ANSEL" → isAnsel buffer = false →
          resolveEncoding buffer = DecodeStrategy.latin1) ∧
      (jsUpper (String.mk tok) ∉
          ["ANSEL", "ASCII", "UNICODE", "UTF-8", "UTF8", "UTF-16", "UTF16"] →
          resolveEncoding buffer = DecodeStrategy.latin1)) := by
  constructor
  · intro h
    simp [resolveEncoding, h]
  · intro tok h
    refine ⟨?_, ?_, ?_, ?_⟩
    · rintro (hu | hu | hu) <;> simp [resolveEncoding, h, hu]
    · intro ha hs
      simp [resolveEncoding, h, ha, hs]
    · intro ha hs
      simp [resolveEncoding, h, ha, hs]
    · intro hnot
      simp only [List.mem_cons, List.not_mem_nil, or_false] at hnot
      push_neg at hnot
      obtain ⟨n1, n2, n3, n4, n5, n6, n7⟩ := hnot
      simp [resolveEncoding, h, n1, n2, n3, n4, n5, n6, n7]

/-- Witness for C1 (amended) on a buffer declaring `1 CHAR ANSEL` that
contains a combining-range byte. -/
theorem C1_resolveEncoding_amended_witness :
    resolveEncoding anselDemoBuf = DecodeStrategy.ansel :=
  (((C1_resolveEncoding_amended anselDemoBuf).2
      ("ANSEL".data) (by decide)).2).1 (by decide) (by decide)

/-- Every parent pushed by the `getParents` loop passes the visited-set
guard. -/
theorem collectParents_not_visited (t : GTree) (vs : List String) :
    ∀ fams, ∀ e ∈ collectParents t (some vs) fams, e.individual.id ∉ vs := by
  intro fams
  induction fams with
  | nil => simp [collectParents]
  | cons fid rest ih =>
    intro e he
    simp only [collectParents, List.mem_append] at he
    rcases he with he | he
    · cases hf : getFamily t fid with
      | none => simp [hf] at he
      | some fam =>
        simp only [hf, List.mem_append] at he
        rcases he with he | he <;>
        · split at he
          · split at he
            · split at he
              · rename_i hallow
                simp only [List.mem_singleton] at he
                subst he
                simpa [visitedAllows, List.elem_iff] using hallow
              · simp at he
            · simp at he
          · simp at he
    · exact ih e he

/-- Every child pushed by the `getChildren` loop passes the visited-set
guard. -/
theorem collectChildren_not_visited (t : GTree) (vs : List String) :
    ∀ fams, ∀ c ∈ collectChildren t (some vs) fams, c.id ∉ vs := by
  intro fams
  induction fams with
  | nil => simp [collectChildren]
  | cons fid rest ih =>
    intro c hc
    simp only [collectChildren, List.mem_append] at hc
    rcases hc with hc | hc
    · cases hf : getFamily t fid with
      | none => simp [hf] at hc
      | some fam =>
        simp only [hf, List.mem_filterMap] at hc
        obtain ⟨childId, _, hch⟩ := hc
        cases hi : getIndividual t childId with
        | none => simp [hi] at hch
        | some child =>
          simp only [hi] at hch
          split at hch
          · rename_i hallow
            cases hch
            simpa [visitedAllows, List.elem_iff] using hallow
          · simp at hch
    · exact ih c hc

/-- Specification of the bounded-depth ancestor traversal: the
processed-node list is duplicate-free, disjoint from the incoming
visited set, and the outgoing visited set is exactly the incoming one
plus the processed nodes. -/
theorem ancestor_visit_spec (t : GTree) : ∀ fuel : Nat,
    (∀ ind visited,
      (ancestorVisit fuel t ind visited).2.Nodup ∧
      (∀ x ∈ (ancestorVisit fuel t ind visited).2, x ∉ visited) ∧
      (∀ x, x ∈ (ancestorVisit fuel t ind visited).1 ↔
        x ∈ (ancestorVisit fuel t ind visited).2 ∨ x ∈ visited)) ∧
    (∀ ps visited,
      (ancestorFold fuel t ps visited).2.Nodup ∧
      (∀ x ∈ (ancestorFold fuel t ps visited).2, x ∉ visited) ∧
      (∀ x, x ∈ (ancestorFold fuel t ps visited).1 ↔
        x ∈ (ancestorFold fuel t ps visited).2 ∨ x ∈ visited)) := by
  have foldStep :
      ∀ fuel : Nat,
        (∀ ind visited,
          (ancestorVisit fuel t ind visited).2.Nodup ∧
          (∀ x ∈ (ancestorVisit fuel t ind visited).2, x ∉ visited) ∧
          (∀ x, x ∈ (ancestorVisit fuel t ind visited).1 ↔
            x ∈ (ancestorVisit fuel t ind visited).2 ∨ x ∈ visited)) →
        (∀ ps visited,
          (ancestorFold fuel t ps visited).2.Nodup ∧
          (∀ x ∈ (ancestorFold fuel t ps visited).2, x ∉ visited) ∧
          (∀ x, x ∈ (ancestorFold fuel t ps visited).1 ↔
            x ∈ (ancestorFold fuel t ps visited).2 ∨ x ∈ visited)) := by
    intro fuel hVisit ps
    induction ps with
    | nil => intro visited; simp [ancestorFold]
    | cons p rest ih =>
      intro visited
      obtain ⟨hn1, hd1, hv1⟩ := hVisit p.individual visited
      obtain ⟨hn2, hd2, hv2⟩ := ih ((ancestorVisit fuel t p.individual visited).1)
      have e1 : (ancestorFold fuel t (p :: rest) visited).1 =
          (ancestorFold fuel t rest
            ((ancestorVisit fuel t p.individual visited).1)).1 := by
        rw [ancestorFold]
      have e2 : (ancestorFold fuel t (p :: rest) visited).2 =
          (ancestorVisit fuel t p.individual visited).2 ++
          (ancestorFold fuel t rest
            ((ancestorVisit fuel t p.individual visited).1)).2 := by
        rw [ancestorFold]
      refine ⟨?_, ?_, ?_⟩
      · rw [e2, List.nodup_append]
        refine ⟨hn1, hn2, ?_⟩
        intro x hx1 hx2
        exact hd2 x hx2 ((hv1 x).mpr (Or.inl hx1))
      · intro x hx
        rw [e2] at hx
        rcases List.mem_append.mp hx with hx | hx
        · exact hd1 x hx
        · intro hmem
          exact hd2 x hx ((hv1 x).mpr (Or.inr hmem))
      · intro x
        rw [e1, e2]
        rw [hv2 x, hv1 x, List.mem_append]
        tauto
  intro fuel
  induction fuel with
  | zero =>
    have hV : ∀ ind visited,
        (ancestorVisit 0 t ind visited).2.Nodup ∧
        (∀ x ∈ (ancestorVisit 0 t ind visited).2, x ∉ visited) ∧
        (∀ x, x ∈ (ancestorVisit 0 t ind visited).1 ↔
          x ∈ (ancestorVisit 0 t ind visited).2 ∨ x ∈ visited) := by
      intro ind visited; simp [ancestorVisit]
    exact ⟨hV, foldStep 0 hV⟩
  | succ f ihf =>
    have hV : ∀ ind visited,
        (ancestorVisit (f + 1) t ind visited).2.Nodup ∧
        (∀ x ∈ (ancestorVisit (f + 1) t ind visited).2, x ∉ visited) ∧
        (∀ x, x ∈ (ancestorVisit (f + 1) t ind visited).1 ↔
          x ∈ (ancestorVisit (f + 1) t ind visited).2 ∨ x ∈ visited) := by
      intro ind visited
      have hFold := foldStep f ihf.1
      by_cases hmem : ind.id ∈ visited
      · simp [ancestorVisit, hmem]
      · obtain ⟨hn, hd, hv⟩ := hFold
          (getParents t ind.id (some (ind.id :: visited))) (ind.id :: visited)
        have e2 : (ancestorVisit (f + 1) t ind visited).2 =
            ind.id :: (ancestorFold f t
              (getParents t ind.id (some (ind.id :: visited)))
              (ind.id :: visited)).2 := by
          simp [ancestorVisit, hmem]
        have e1 : (ancestorVisit (f + 1) t ind visited).1 =
            (ancestorFold f t
              (getParents t ind.id (some (ind.id :: visited)))
              (ind.id :: visited)).1 := by
          simp [ancestorVisit, hmem]
        refine ⟨?_, ?_, ?_⟩
        · rw [e2, List.nodup_cons]
          refine ⟨fun hin => ?_, hn⟩
          exact hd ind.id hin (List.mem_cons_self _ _)
        · intro x hx
          rw [e2, List.mem_cons] at hx
          rcases hx with rfl | hx
          · exact hmem
          · intro hxv
            exact hd x hx (List.mem_cons_of_mem _ hxv)
        · intro x
          rw [e1, e2, hv x, List.mem_cons, List.mem_cons]
          tauto
    exact ⟨hV, foldStep (f + 1) hV⟩

/-- C7: with a visited set passed as the visited parameter, every
individual returned by `getParents` and every child returned by
`getChildren` has an id outside the visited set; consequently the
bounded-depth ancestor traversal that threads the visited set through
its recursive calls terminates (it is a total function of its depth
fuel) and never processes a node twice nor a node already visited, even
on cyclic family links. -/
theorem C7_visited_cycle_safety (t : GTree) (vs : List String) (id : String) :
    (∀ e ∈ getParents t id (some vs), e.individual.id ∉ vs) ∧
    (∀ c ∈ getChildren t id (some vs), c.id ∉ vs) ∧
    (∀ fuel ind, (ancestorVisit fuel t ind vs).2.Nodup ∧
      ∀ x ∈ (ancestorVisit fuel t ind vs).2, x ∉ vs) := by
  refine ⟨?_, ?_, ?_⟩
  · intro e he
    unfold getParents at he
    cases hi : getIndividual t id with
    | none => simp [hi] at he
    | some ind =>
      rw [hi] at he
      exact collectParents_not_visited t vs _ e he
  · intro c hc
    unfold getChildren at hc
    cases hi : getIndividual t id with
    | none => simp [hi] at hc
    | some ind =>
      rw [hi] at hc
      exact collectChildren_not_visited t vs _ c hc
  · intro fuel ind
    obtain ⟨hn, hd, _⟩ := (ancestor_visit_spec t fuel).1 ind vs
    exact ⟨hn, hd⟩

/-- Witness for C7 on the two-person cyclic tree: the parent of `@I1@`
under a nonempty visited set avoids that set, and the traversal from
`@I1@` with depth 5 processes each node at most once. -/
theorem C7_visited_cycle_safety_witness :
    ((cycIndi "@I2@" ["@F2@"] ["@F1@"]).id ∉ ["@I9@"]) ∧
    (ancestorVisit 5 cycTree (cycIndi "@I1@" ["@F1@"] ["@F2@"]) []).2.Nodup :=
  ⟨(C7_visited_cycle_safety cycTree ["@I9@"] "@I1@").1
      (ParentEntry.mk "father" (cycIndi "@I2@" ["@F2@"] ["@F1@"])) (by decide),
   ((C7_visited_cycle_safety cycTree [] "@I1@").2.2 5
      (cycIndi "@I1@" ["@F1@"] ["@F2@"])).1⟩

/-- Every parent entry produced by the `getParents` loop is a value of
the individuals map. -/
theorem collectParents_resolvable (t : GTree) (vis : Option (List String)) :
    ∀ fams, ∀ e ∈ collectParents t vis fams,
      ∃ key, getIndividual t key = some e.individual := by
  intro fams
  induction fams with
  | nil => simp [collectParents]
  | cons fid rest ih =>
    intro e he
    simp only [collectParents, List.mem_append] at he
    rcases he with he | he
    · cases hf : getFamily t fid with
      | none => simp [hf] at he
      | some fam =>
        simp only [hf, List.mem_append] at he
        rcases he with he | he
        · split at he
          · split at he
            · rename_i father hi
              split at he
              · simp only [List.mem_singleton] at he
                subst he
                exact ⟨_, hi⟩
              · simp at he
            · simp at he
          · simp at he
        · split at he
          · split at he
            · rename_i mother hi
              split at he
              · simp only [List.mem_singleton] at he
                subst he
                exact ⟨_, hi⟩
              · simp at he
            · simp at he
          · simp at he
    · exact ih e he

/-- Every child produced by the `getChildren` loop is a value of the
individuals map. -/
theorem collectChildren_resolvable (t : GTree) (vis : Option (List String)) :
    ∀ fams, ∀ c ∈ collectChildren t vis fams,
      ∃ key, getIndividual t key = some c := by
  intro fams
  induction fams with
  | nil => simp [collectChildren]
  | cons fid rest ih =>
    intro c hc
    simp only [collectChildren, List.mem_append] at hc
    rcases hc with hc | hc
    · cases hf : getFamily t fid with
      | none => simp [hf] at hc
      | some fam =>
        simp only [hf, List.mem_filterMap] at hc
        obtain ⟨childId, _, hch⟩ := hc
        cases hi : getIndividual t childId with
        | none => simp [hi] at hch
        | some child =>
          simp only [hi] at hch
          split at hch
          · cases hch
            exact ⟨_, hi⟩
          · simp at hch
    · exact ih c hc

/-- Every spouse entry produced by the `getSpouses` loop is a value of
the individuals map. -/
theorem collectSpouses_resolvable (t : GTree) (id : String) :
    ∀ fams, ∀ e ∈ collectSpouses t id fams,
      ∃ key, getIndividual t key = some e.individual := by
  intro fams
  induction fams with
  | nil => simp [collectSpouses]
  | cons fid rest ih =>
    intro e he
    simp only [collectSpouses, List.mem_append] at he
    rcases he with he | he
    · cases hf : getFamily t fid with
      | none => simp [hf] at he
      | some fam =>
        simp only [hf] at he
        split at he
        · split at he
          · rename_i spouse hi
            simp only [List.mem_singleton] at he
            subst he
            exact ⟨_, hi⟩
          · simp at he
        · split at he
          · split at he
            · rename_i spouse hi
              simp only [List.mem_singleton] at he
              subst he
              exact ⟨_, hi⟩
            · simp at he
          · simp at he
    · exact ih e he

/-- Every sibling produced by the `getSiblings` loop is a value of the
individuals map. -/
theorem collectSiblings_resolvable (t : GTree) (id : String) :
    ∀ fams, ∀ c ∈ collectSiblings t id fams,
      ∃ key, getIndividual t key = some c := by
  intro fams
  induction fams with
  | nil => simp [collectSiblings]
  | cons fid rest ih =>
    intro c hc
    simp only [collectSiblings, List.mem_append] at hc
    rcases hc with hc | hc
    · cases hf : getFamily t fid with
      | none => simp [hf] at hc
      | some fam =>
        simp only [hf, List.mem_filterMap] at hc
        obtain ⟨sibId, _, hch⟩ := hc
        split at hch
        · exact ⟨_, hch⟩
        · simp at hch
    · exact ih c hc

/-- C8: the relationship queries are total functions (they never throw):
a queried id with no entry in the individuals map yields the empty list
for all four queries, and every entity appearing in a query result
resolves through the individuals map, so dangling family or individual
references are skipped. -/
theorem C8_queries_tolerate_missing (t : GTree) (id : String)
    (vis : Option (List String)) :
    (getIndividual t id = none →
      getParents t id vis = [] ∧ getChildren t id vis = [] ∧
      getSpouses t id = [] ∧ getSiblings t id = []) ∧
    (∀ e ∈ getParents t id vis, ∃ key, getIndividual t key = some e.individual) ∧
    (∀ c ∈ getChildren t id vis, ∃ key, getIndividual t key = some c) ∧
    (∀ e ∈ getSpouses t id, ∃ key, getIndividual t key = some e.individual) ∧
    (∀ c ∈ getSiblings t id, ∃ key, getIndividual t key = some c) := by
  refine ⟨?_, ?_, ?_, ?_, ?_⟩
  · intro h
    simp [getParents, getChildren, getSpouses, getSiblings, h]
  · intro e he
    unfold getParents at he
    cases hi : getIndividual t id with
    | none => simp [hi] at he
    | some ind =>
      rw [hi] at he
      exact collectParents_resolvable t vis _ e he
  · intro c hc
    unfold getChildren at hc
    cases hi : getIndividual t id with
    | none => simp [hi] at hc
    | some ind =>
      rw [hi] at hc
      exact collectChildren_resolvable t vis _ c hc
  · intro e he
    unfold getSpouses at he
    cases hi : getIndividual t id with
    | none => simp [hi] at he
    | some ind =>
      rw [hi] at he
      exact collectSpouses_resolvable t id _ e he
  · intro c hc
    unfold getSiblings at hc
    cases hi : getIndividual t id with
    | none => simp [hi] at hc
    | some ind =>
      rw [hi] at hc
      exact collectSiblings_resolvable t id _ c hc

/-- Witness for C8: an unknown id yields empty results on the cyclic
demo tree, and the parent returned for `@I1@` resolves in the map. -/
theorem C8_queries_tolerate_missing_witness :
    (getParents cycTree "@NOPE@" none = [] ∧
     getChildren cycTree "@NOPE@" none = [] ∧
     getSpouses cycTree "@NOPE@" = [] ∧
     getSiblings cycTree "@NOPE@" = []) ∧
    (∃ key, getIndividual cycTree key =
      some (cycIndi "@I2@" ["@F2@"] ["@F1@"])) :=
  ⟨(C8_queries_tolerate_missing cycTree "@NOPE@" none).1 (by decide),
   (C8_queries_tolerate_missing cycTree "@I1@" none).2.1
     (ParentEntry.mk "father" (cycIndi "@I2@" ["@F2@"] ["@F1@"])) (by decide)⟩

/-- The xref group either leaves the input untouched or consumes a
well-formed `@word@` plus trailing whitespace segment. -/
theorem tryXrefGroup_split (cs : List Char) :
    (tryXrefGroup cs).2 = cs ∨
    ∃ w xw, w ≠ [] ∧ (∀ c ∈ w, isWordCh c) ∧ xw ≠ [] ∧
      (∀ c ∈ xw, isJsSpace c) ∧
      cs = ('@' :: w ++ '@' :: xw) ++ (tryXrefGroup cs).2 := by
  rw [tryXrefGroup.eq_def]
  split
  · rename_i rs
    simp only [splitWhile]
    split
    · exact Or.inl rfl
    · rename_i hw
      split
      · rename_i q2 heq
        split
        · exact Or.inl rfl
        · rename_i hws
          refine Or.inr ⟨rs.takeWhile isWordCh, q2.takeWhile isJsSpace,
            hw, ?_, hws, ?_, ?_⟩
          · intro c hc
            exact List.mem_takeWhile_imp hc
          · intro c hc
            exact List.mem_takeWhile_imp hc
          · have h1 : rs = rs.takeWhile isWordCh ++ rs.dropWhile isWordCh :=
              (List.takeWhile_append_dropWhile _ _).symm
            have h2 : q2 = q2.takeWhile isJsSpace ++ q2.dropWhile isJsSpace :=
              (List.takeWhile_append_dropWhile _ _).symm
            simp only []
            conv_lhs => rw [h1, heq]
            conv_lhs => rw [h2]
            simp
      · exact Or.inl rfl
  · exact Or.inl rfl

/-- Soundness of the line scanner: a produced token means the trimmed
line matches the `LEVEL [XREF] TAG [VALUE]` grammar. -/
theorem parseLineCore_sound (cs : List Char) (t : GLine)
    (h : parseLineCore cs = some t) : matchesLineGrammar cs := by
  simp only [parseLineCore, splitWhile] at h
  split at h
  · exact absurd h (by simp)
  · rename_i hlvl
    split at h
    · exact absurd h (by simp)
    · rename_i hw1
      rcases tryXrefGroup_split ((cs.dropWhile isDigitCh).dropWhile isJsSpace)
        with hx | ⟨w, xw, hwne, hwall, hxwne, hxwall, hxeq⟩
      · -- no xref group: x = []
        rw [hx] at h
        split at h
        · exact absurd h (by simp)
        · rename_i htag
          set X := (cs.dropWhile isDigitCh).dropWhile isJsSpace with hX
          refine ⟨cs.takeWhile isDigitCh,
            (cs.dropWhile isDigitCh).takeWhile isJsSpace, [],
            X.takeWhile isWordCh, X.dropWhile isWordCh,
            ?_, hlvl, fun c hc => List.mem_takeWhile_imp hc,
            hw1, fun c hc => List.mem_takeWhile_imp hc,
            Or.inl rfl, htag, fun c hc => List.mem_takeWhile_imp hc, ?_⟩
          · rw [List.append_nil, List.append_assoc _ (X.takeWhile isWordCh),
              List.takeWhile_append_dropWhile, List.append_assoc, hX,
              List.takeWhile_append_dropWhile, List.takeWhile_append_dropWhile]
          · split at h
            · exact Or.inl (by assumption)
            · split at h
              · exact absurd h (by simp)
              · rename_i hw2
                split at h
                · rename_i hval
                  refine Or.inr ⟨_, _,
                    (List.takeWhile_append_dropWhile isJsSpace _).symm,
                    hw2, fun c hc => List.mem_takeWhile_imp hc, ?_⟩
                  intro c hc
                  exact List.all_eq_true.mp hval c hc
                · exact absurd h (by simp)
      · -- xref group consumed
        split at h
        · exact absurd h (by simp)
        · rename_i htag
          set X := (cs.dropWhile isDigitCh).dropWhile isJsSpace with hX
          set R := (tryXrefGroup X).2 with hR
          refine ⟨cs.takeWhile isDigitCh,
            (cs.dropWhile isDigitCh).takeWhile isJsSpace,
            '@' :: w ++ '@' :: xw,
            R.takeWhile isWordCh, R.dropWhile isWordCh,
            ?_, hlvl, fun c hc => List.mem_takeWhile_imp hc,
            hw1, fun c hc => List.mem_takeWhile_imp hc,
            Or.inr ⟨w, xw, rfl, hwne, hwall, hxwne, hxwall⟩,
            htag, fun c hc => List.mem_takeWhile_imp hc, ?_⟩
          · have h5 : R.takeWhile isWordCh ++ R.dropWhile isWordCh = R :=
              List.takeWhile_append_dropWhile _ _
            have h4 : ('@' :: w ++ '@' :: xw) ++ R = X := hxeq.symm
            have h3 : (cs.dropWhile isDigitCh).takeWhile isJsSpace ++ X =
                cs.dropWhile isDigitCh := List.takeWhile_append_dropWhile _ _
            have h2 : cs.takeWhile isDigitCh ++ cs.dropWhile isDigitCh = cs :=
              List.takeWhile_append_dropWhile _ _
            rw [List.append_assoc _ (R.takeWhile isWordCh), h5,
              List.append_assoc _ ('@' :: w ++ '@' :: xw), h4,
              List.append_assoc, h3, h2]
          · split at h
            · exact Or.inl (by assumption)
            · split at h
              · exact absurd h (by simp)
              · rename_i hw2
                split at h
                · rename_i hval
                  refine Or.inr ⟨_, _,
                    (List.takeWhile_append_dropWhile isJsSpace _).symm,
                    hw2, fun c hc => List.mem_takeWhile_imp hc, ?_⟩
                  intro c hc
                  exact List.all_eq_true.mp hval c hc
                · exact absurd h (by simp)

/-- Unfolding `runRawLines` over a line that tokenizes. -/
theorem runRawLines_cons_tok (s : PState) (l : String) (t : GLine)
    (ls : List String) (hp : parseLine l = .tok t) :
    runRawLines s (l :: ls) =
      (match stepLine s t with
       | .ok s2 => runRawLines s2 ls
       | .error e => Except.error e) := by
  rw [runRawLines, hp]

/-- Unfolding `runRawLines` over a skipped line. -/
theorem runRawLines_cons_skip (s : PState) (l : String) (ls : List String)
    (hp : parseLine l = .blank ∨ parseLine l = .warn) :
    runRawLines s (l :: ls) = runRawLines s ls := by
  rw [runRawLines]
  rcases hp with hp | hp <;> rw [hp]

/-- C9: the tokenizer returns a token only when the trimmed line matches
the `LEVEL [XREF] TAG [VALUE]` grammar; a blank or empty line produces
no token; a non-blank line failing the grammar produces the
warning-and-skip outcome; and in both no-token cases the parse loop
continues with the remaining lines as if the line were absent. -/
theorem C9_tokenizer_skip (line : String) :
    (∀ t, parseLine line = .tok t →
      jsTrim line.data ≠ [] ∧ matchesLineGrammar (jsTrim line.data)) ∧
    (jsTrim line.data = [] → parseLine line = .blank) ∧
    (jsTrim line.data ≠ [] → ¬ matchesLineGrammar (jsTrim line.data) →
      parseLine line = .warn) ∧
    (∀ s pre post, (∀ t, parseLine line ≠ .tok t) →
      runRawLines s (pre ++ line :: post) = runRawLines s (pre ++ post)) := by
  refine ⟨?_, ?_, ?_, ?_⟩
  · intro t ht
    unfold parseLine at ht
    split at ht
    · exact absurd ht (by simp)
    · rename_i hne
      refine ⟨hne, ?_⟩
      cases hc : parseLineCore (jsTrim line.data) with
      | none => rw [hc] at ht; exact absurd ht (by simp)
      | some t0 => exact parseLineCore_sound _ t0 hc
  · intro h
    simp [parseLine, h]
  · intro hne hng
    unfold parseLine
    rw [if_neg hne]
    cases hc : parseLineCore (jsTrim line.data) with
    | none => rfl
    | some t0 => exact absurd (parseLineCore_sound _ t0 hc) hng
  · intro s pre post hskip
    induction pre generalizing s with
    | nil =>
      simp only [List.nil_append]
      cases hp : parseLine line with
      | tok t => exact absurd hp (hskip t)
      | blank => rw [runRawLines_cons_skip s line post (Or.inl hp)]
      | warn => rw [runRawLines_cons_skip s line post (Or.inr hp)]
    | cons p rest ih =>
      simp only [List.cons_append]
      cases hp : parseLine p with
      | tok t =>
        rw [runRawLines_cons_tok s p t _ hp, runRawLines_cons_tok s p t _ hp]
        cases stepLine s t with
        | ok s2 => exact ih s2
        | error e => rfl
      | blank =>
        rw [runRawLines_cons_skip s p _ (Or.inl hp),
            runRawLines_cons_skip s p _ (Or.inl hp)]
        exact ih s
      | warn =>
        rw [runRawLines_cons_skip s p _ (Or.inr hp),
            runRawLines_cons_skip s p _ (Or.inr hp)]
        exact ih s

/-- Witness for C9: the empty line yields the blank outcome and is
skipped by the parse loop. -/
theorem C9_tokenizer_skip_witness :
    parseLine "" = LineOutcome.blank ∧
    runRawLines initState ["0 HEAD", "", "0 TRLR"] =
      runRawLines initState ["0 HEAD", "0 TRLR"] :=
  ⟨(C9_tokenizer_skip "").2.1 (by decide),
   (C9_tokenizer_skip "").2.2.2 initState ["0 HEAD"] ["0 TRLR"]
     (by
       intro t ht
       rw [show parseLine "" = LineOutcome.blank from by decide] at ht
       exact LineOutcome.noConfusion ht)⟩

/-- Finalization closes the current record. -/
theorem finalize_currentRecord_none (s : PState) :
    (finalizeCurrentRecord s).currentRecord = none := by
  unfold finalizeCurrentRecord
  cases hr : s.currentRecord with
  | none => exact hr
  | some r => cases r <;> rfl

/-- Finalizing with no open record is the identity. -/
theorem finalize_of_none (s : PState) (h : s.currentRecord = none) :
    finalizeCurrentRecord s = s := by
  unfold finalizeCurrentRecord
  rw [h]

/-- A second finalization attempt is a no-op. -/
theorem finalize_idem (s : PState) :
    finalizeCurrentRecord (finalizeCurrentRecord s) = finalizeCurrentRecord s :=
  finalize_of_none _ (finalize_currentRecord_none s)

/-- A line at a positive level touches neither the entity maps nor the
type and id of the open record. -/
theorem stepLine_pos (s s' : PState) (L : GLine) (h0 : L.level ≠ 0)
    (h : stepLine s L = .ok s') :
    s'.tabs = s.tabs ∧ openIndiId s' = openIndiId s ∧
    openFamId s' = openFamId s ∧ openNoteId s' = openNoteId s ∧
    openSubmId s' = openSubmId s := by
  unfold stepLine at h
  rw [if_neg h0] at h
  split at h
  · cases h
    exact ⟨rfl, rfl, rfl, rfl, rfl⟩
  · split at h
    · cases h
      exact ⟨rfl, rfl, rfl, rfl, rfl⟩
    · split at h <;>
        first
        | (split at h
           · cases h
             simp_all [openIndiId, openFamId, openNoteId, openSubmId]
           · cases h)
        | (cases h
           simp_all [openIndiId, openFamId, openNoteId, openSubmId])

/-- A level-0 `TRLR` line is exactly one finalization. -/
theorem stepLine_trlr (s : PState) (x : Option String) (v : String) :
    stepLine s (GLine.mk 0 x "TRLR" v) = .ok (finalizeCurrentRecord s) := by
  unfold stepLine
  simp [finalize_idem]

/-- A level-0 non-`TRLR` line finalizes and then opens the record
described by `openedRecOf`. -/
theorem stepLine_zero (s : PState) (L : GLine) (h0 : L.level = 0)
    (ht : L.tag ≠ "TRLR") :
    stepLine s L = .ok { finalizeCurrentRecord s with
      currentRecord := openedRecOf L,
      stack := [if (openedRecOf L).isSome then some Slot.record else none] } := by
  unfold stepLine
  rw [if_pos h0, if_neg ht]

/-- Finalization appends the open record id (if any) to its map's key
list and leaves the other maps untouched, provided the open id is fresh
for its map. -/
theorem finalize_inv (s : PState)
    (hI : (indiKeys s ++ openIndiId s).Nodup)
    (hF : (famKeys s ++ openFamId s).Nodup)
    (hN : (noteKeys s ++ openNoteId s).Nodup)
    (hS : (submKeys s ++ openSubmId s).Nodup) :
    indiKeys (finalizeCurrentRecord s) = indiKeys s ++ openIndiId s ∧
    famKeys (finalizeCurrentRecord s) = famKeys s ++ openFamId s ∧
    noteKeys (finalizeCurrentRecord s) = noteKeys s ++ openNoteId s ∧
    submKeys (finalizeCurrentRecord s) = submKeys s ++ openSubmId s := by
  cases hr : s.currentRecord with
  | none =>
    rw [finalize_of_none s hr]
    simp [openIndiId, openFamId, openNoteId, openSubmId, hr]
  | some r =>
    cases r with
    | header =>
      unfold finalizeCurrentRecord
      rw [hr]
      simp [indiKeys, famKeys, noteKeys, submKeys,
        openIndiId, openFamId, openNoteId, openSubmId, hr]
    | indi id d =>
      have hid : id ∉ indiKeys s := by
        rw [show openIndiId s = [id] from by simp [openIndiId, hr]] at hI
        have := (List.nodup_append.mp hI).2.2
        intro hmem
        exact this hmem (List.mem_singleton_self id)
      unfold finalizeCurrentRecord
      rw [hr]
      simp only [indiKeys, famKeys, noteKeys, submKeys]
      rw [show openIndiId s = [id] from by simp [openIndiId, hr]]
      simp [mapSet_eq_append _ _ _ hid,
        openFamId, openNoteId, openSubmId, hr, indiKeys]
    | fam id d =>
      have hid : id ∉ famKeys s := by
        rw [show openFamId s = [id] from by simp [openFamId, hr]] at hF
        have := (List.nodup_append.mp hF).2.2
        intro hmem
        exact this hmem (List.mem_singleton_self id)
      unfold finalizeCurrentRecord
      rw [hr]
      simp only [indiKeys, famKeys, noteKeys, submKeys]
      rw [show openFamId s = [id] from by simp [openFamId, hr]]
      simp [mapSet_eq_append _ _ _ hid,
        openIndiId, openNoteId, openSubmId, hr, famKeys]
    | note id d rd rt =>
      have hid : id ∉ noteKeys s := by
        rw [show openNoteId s = [id] from by simp [openNoteId, hr]] at hN
        have := (List.nodup_append.mp hN).2.2
        intro hmem
        exact this hmem (List.mem_singleton_self id)
      unfold finalizeCurrentRecord
      rw [hr]
      simp only [indiKeys, famKeys, noteKeys, submKeys]
      rw [show openNoteId s = [id] from by simp [openNoteId, hr]]
      simp [mapSet_eq_append _ _ _ hid,
        openIndiId, openFamId, openSubmId, hr, noteKeys]
    | subm id d rd rt =>
      have hid : id ∉ submKeys s := by
        rw [show openSubmId s = [id] from by simp [openSubmId, hr]] at hS
        have := (List.nodup_append.mp hS).2.2
        intro hmem
        exact this hmem (List.mem_singleton_self id)
      unfold finalizeCurrentRecord
      rw [hr]
      simp only [indiKeys, famKeys, noteKeys, submKeys]
      rw [show openSubmId s = [id] from by simp [openSubmId, hr]]
      simp [mapSet_eq_append _ _ _ hid,
        openIndiId, openFamId, openNoteId, hr, submKeys]
    | other tg id =>
      unfold finalizeCurrentRecord
      rw [hr]
      simp [indiKeys, famKeys, noteKeys, submKeys,
        openIndiId, openFamId, openNoteId, openSubmId, hr]

/-- Finalization never disturbs an already-committed map entry, provided
the open id is fresh for its map. -/
theorem finalize_get (s : PState)
    (hI : (indiKeys s ++ openIndiId s).Nodup)
    (hF : (famKeys s ++ openFamId s).Nodup)
    (hN : (noteKeys s ++ openNoteId s).Nodup)
    (hS : (submKeys s ++ openSubmId s).Nodup) :
    (∀ k r, mapGet s.tabs.individuals k = some r →
      mapGet (finalizeCurrentRecord s).tabs.individuals k = some r) ∧
    (∀ k r, mapGet s.tabs.families k = some r →
      mapGet (finalizeCurrentRecord s).tabs.families k = some r) ∧
    (∀ k r, mapGet s.tabs.notes k = some r →
      mapGet (finalizeCurrentRecord s).tabs.notes k = some r) ∧
    (∀ k r, mapGet s.tabs.submitters k = some r →
      mapGet (finalizeCurrentRecord s).tabs.submitters k = some r) := by
  cases hr : s.currentRecord with
  | none =>
    rw [finalize_of_none s hr]
    exact ⟨fun _ _ h => h, fun _ _ h => h, fun _ _ h => h, fun _ _ h => h⟩
  | some r =>
    cases r with
    | header =>
      unfold finalizeCurrentRecord
      rw [hr]
      exact ⟨fun _ _ h => h, fun _ _ h => h, fun _ _ h => h, fun _ _ h => h⟩
    | indi id d =>
      have hid : id ∉ indiKeys s := by
        rw [show openIndiId s = [id] from by simp [openIndiId, hr]] at hI
        have := (List.nodup_append.mp hI).2.2
        intro hmem
        exact this hmem (List.mem_singleton_self id)
      unfold finalizeCurrentRecord
      rw [hr]
      refine ⟨?_, fun _ _ h => h, fun _ _ h => h, fun _ _ h => h⟩
      intro k r hk
      have hkne : k ≠ id := fun he =>
        hid (he ▸ mapGet_mem_keys _ _ _ hk)
      simpa [mapGet_mapSet_ne _ _ _ _ hkne] using hk
    | fam id d =>
      have hid : id ∉ famKeys s := by
        rw [show openFamId s = [id] from by simp [openFamId, hr]] at hF
        have := (List.nodup_append.mp hF).2.2
        intro hmem
        exact this hmem (List.mem_singleton_self id)
      unfold finalizeCurrentRecord
      rw [hr]
      refine ⟨fun _ _ h => h, ?_, fun _ _ h => h, fun _ _ h => h⟩
      intro k r hk
      have hkne : k ≠ id := fun he =>
        hid (he ▸ mapGet_mem_keys _ _ _ hk)
      simpa [mapGet_mapSet_ne _ _ _ _ hkne] using hk
    | note id d rd rt =>
      have hid : id ∉ noteKeys s := by
        rw [show openNoteId s = [id] from by simp [openNoteId, hr]] at hN
        have := (List.nodup_append.mp hN).2.2
        intro hmem
        exact this hmem (List.mem_singleton_self id)
      unfold finalizeCurrentRecord
      rw [hr]
      refine ⟨fun _ _ h => h, fun _ _ h => h, ?_, fun _ _ h => h⟩
      intro k r hk
      have hkne : k ≠ id := fun he =>
        hid (he ▸ mapGet_mem_keys _ _ _ hk)
      simpa [mapGet_mapSet_ne _ _ _ _ hkne] using hk
    | subm id d rd rt =>
      have hid : id ∉ submKeys s := by
        rw [show openSubmId s = [id] from by simp [openSubmId, hr]] at hS
        have := (List.nodup_append.mp hS).2.2
        intro hmem
        exact this hmem (List.mem_singleton_self id)
      unfold finalizeCurrentRecord
      rw [hr]
      refine ⟨fun _ _ h => h, fun _ _ h => h, fun _ _ h => h, ?_⟩
      intro k r hk
      have hkne : k ≠ id := fun he =>
        hid (he ▸ mapGet_mem_keys _ _ _ hk)
      simpa [mapGet_mapSet_ne _ _ _ _ hkne] using hk
    | other tg id =>
      unfold finalizeCurrentRecord
      rw [hr]
      exact ⟨fun _ _ h => h, fun _ _ h => h, fun _ _ h => h, fun _ _ h => h⟩

/-- The opened-id lists distribute over stream concatenation. -/
theorem openedIds_append (p q : List GLine) :
    openedIndiIds (p ++ q) = openedIndiIds p ++ openedIndiIds q ∧
    openedFamIds (p ++ q) = openedFamIds p ++ openedFamIds q ∧
    openedNoteIds (p ++ q) = openedNoteIds p ++ openedNoteIds q ∧
    openedSubmIds (p ++ q) = openedSubmIds p ++ openedSubmIds q := by
  refine ⟨?_, ?_, ?_, ?_⟩ <;>
    simp [openedIndiIds, openedFamIds, openedNoteIds, openedSubmIds,
      List.filterMap_append]

/-- A positive-level line opens nothing. -/
theorem openedIds_pos (L : GLine) (h0 : L.level ≠ 0) :
    openedIndiIds [L] = [] ∧ openedFamIds [L] = [] ∧
    openedNoteIds [L] = [] ∧ openedSubmIds [L] = [] := by
  refine ⟨?_, ?_, ?_, ?_⟩ <;>
    simp [openedIndiIds, openedFamIds, openedNoteIds, openedSubmIds, h0]

/-- `TRLR` opens nothing. -/
theorem openedIds_trlr (L : GLine) (ht : L.tag = "TRLR") :
    openedIndiIds [L] = [] ∧ openedFamIds [L] = [] ∧
    openedNoteIds [L] = [] ∧ openedSubmIds [L] = [] := by
  have hrec : openedRecOf L = none := by
    unfold openedRecOf
    rw [ht]
    rfl
  refine ⟨?_, ?_, ?_, ?_⟩ <;>
    simp [openedIndiIds, openedFamIds, openedNoteIds, openedSubmIds, hrec]

/-- One assembler step preserves the key-list invariant, given
freshness of the already-opened ids. -/
theorem step_inv (p : List GLine) (s s' : PState) (L : GLine)
    (hInv : AssemblerInv p s)
    (hI : (openedIndiIds p).Nodup) (hF : (openedFamIds p).Nodup)
    (hN : (openedNoteIds p).Nodup) (hS : (openedSubmIds p).Nodup)
    (h : stepLine s L = .ok s') :
    AssemblerInv (p ++ [L]) s' := by
  obtain ⟨i1, i2, i3, i4⟩ := hInv
  obtain ⟨a1, a2, a3, a4⟩ := openedIds_append p [L]
  have hfin := finalize_inv s (i1 ▸ hI) (i2 ▸ hF) (i3 ▸ hN) (i4 ▸ hS)
  have hnone := finalize_currentRecord_none s
  by_cases h0 : L.level = 0
  · by_cases ht : L.tag = "TRLR"
    · obtain ⟨t1, t2, t3, t4⟩ := openedIds_trlr L ht
      have hs' : s' = finalizeCurrentRecord s := by
        obtain ⟨lv, x, tg, v⟩ := L
        simp only [] at h0 ht
        subst h0 ht
        rw [stepLine_trlr] at h
        cases h
        rfl
      subst hs'
      refine ⟨?_, ?_, ?_, ?_⟩
      · rw [a1, t1, List.append_nil, hfin.1,
          show openIndiId (finalizeCurrentRecord s) = [] from by
            simp [openIndiId, hnone],
          List.append_nil, i1]
      · rw [a2, t2, List.append_nil, hfin.2.1,
          show openFamId (finalizeCurrentRecord s) = [] from by
            simp [openFamId, hnone],
          List.append_nil, i2]
      · rw [a3, t3, List.append_nil, hfin.2.2.1,
          show openNoteId (finalizeCurrentRecord s) = [] from by
            simp [openNoteId, hnone],
          List.append_nil, i3]
      · rw [a4, t4, List.append_nil, hfin.2.2.2,
          show openSubmId (finalizeCurrentRecord s) = [] from by
            simp [openSubmId, hnone],
          List.append_nil, i4]
    · rw [stepLine_zero s L h0 ht] at h
      cases h
      refine ⟨?_, ?_, ?_, ?_⟩
      · rw [a1, show indiKeys { finalizeCurrentRecord s with
              currentRecord := openedRecOf L,
              stack := [if (openedRecOf L).isSome then some Slot.record
                        else none] } =
            indiKeys (finalizeCurrentRecord s) from rfl,
          hfin.1, i1]
        congr 1
        cases hL : openedRecOf L with
        | none => simp [openIndiId, openedIndiIds, h0, hL]
        | some r => cases r <;> simp [openIndiId, openedIndiIds, h0, hL]
      · rw [a2, show famKeys { finalizeCurrentRecord s with
              currentRecord := openedRecOf L,
              stack := [if (openedRecOf L).isSome then some Slot.record
                        else none] } =
            famKeys (finalizeCurrentRecord s) from rfl,
          hfin.2.1, i2]
        congr 1
        cases hL : openedRecOf L with
        | none => simp [openFamId, openedFamIds, h0, hL]
        | some r => cases r <;> simp [openFamId, openedFamIds, h0, hL]
      · rw [a3, show noteKeys { finalizeCurrentRecord s with
              currentRecord := openedRecOf L,
              stack := [if (openedRecOf L).isSome then some Slot.record
                        else none] } =
            noteKeys (finalizeCurrentRecord s) from rfl,
          hfin.2.2.1, i3]
        congr 1
        cases hL : openedRecOf L with
        | none => simp [openNoteId, openedNoteIds, h0, hL]
        | some r => cases r <;> simp [openNoteId, openedNoteIds, h0, hL]
      · rw [a4, show submKeys { finalizeCurrentRecord s with
              currentRecord := openedRecOf L,
              stack := [if (openedRecOf L).isSome then some Slot.record
                        else none] } =
            submKeys (finalizeCurrentRecord s) from rfl,
          hfin.2.2.2, i4]
        congr 1
        cases hL : openedRecOf L with
        | none => simp [openSubmId, openedSubmIds, h0, hL]
        | some r => cases r <;> simp [openSubmId, openedSubmIds, h0, hL]
  · obtain ⟨htabs, o1, o2, o3, o4⟩ := stepLine_pos s s' L h0 h
    obtain ⟨p1, p2, p3, p4⟩ := openedIds_pos L h0
    refine ⟨?_, ?_, ?_, ?_⟩
    · rw [a1, p1, List.append_nil, show indiKeys s' = indiKeys s from by
        simp [indiKeys, htabs], o1, i1]
    · rw [a2, p2, List.append_nil, show famKeys s' = famKeys s from by
        simp [famKeys, htabs], o2, i2]
    · rw [a3, p3, List.append_nil, show noteKeys s' = noteKeys s from by
        simp [noteKeys, htabs], o3, i3]
    · rw [a4, p4, List.append_nil, show submKeys s' = submKeys s from by
        simp [submKeys, htabs], o4, i4]

/-- Running a stream splits at any point. -/
theorem runFrom_append (s : PState) (l1 l2 : List GLine) :
    runFrom s (l1 ++ l2) =
      match runFrom s l1 with
      | .ok s1 => runFrom s1 l2
      | .error e => .error e := by
  induction l1 generalizing s with
  | nil => simp [runFrom]
  | cons L rest ih =>
    simp only [List.cons_append]
    rw [runFrom, runFrom]
    cases stepLine s L with
    | ok s1 => exact ih s1
    | error e => rfl

/-- Running from an invariant-satisfying state preserves the invariant. -/
theorem runFrom_inv (l : List GLine) :
    ∀ (p : List GLine) (s s2 : PState), AssemblerInv p s →
      (openedIndiIds (p ++ l)).Nodup → (openedFamIds (p ++ l)).Nodup →
      (openedNoteIds (p ++ l)).Nodup → (openedSubmIds (p ++ l)).Nodup →
      runFrom s l = .ok s2 → AssemblerInv (p ++ l) s2 := by
  induction l with
  | nil =>
    intro p s s2 hInv _ _ _ _ h
    rw [runFrom] at h
    cases h
    simpa using hInv
  | cons L rest ih =>
    intro p s s2 hInv hI hF hN hS h
    rw [runFrom] at h
    cases hst : stepLine s L with
    | error e => rw [hst] at h; cases h
    | ok s1 =>
      rw [hst] at h
      have hI0 : (openedIndiIds p).Nodup := by
        have := (openedIds_append p (L :: rest)).1 ▸ hI
        exact (List.nodup_append.mp this).1
      have hF0 : (openedFamIds p).Nodup := by
        have := (openedIds_append p (L :: rest)).2.1 ▸ hF
        exact (List.nodup_append.mp this).1
      have hN0 : (openedNoteIds p).Nodup := by
        have := (openedIds_append p (L :: rest)).2.2.1 ▸ hN
        exact (List.nodup_append.mp this).1
      have hS0 : (openedSubmIds p).Nodup := by
        have := (openedIds_append p (L :: rest)).2.2.2 ▸ hS
        exact (List.nodup_append.mp this).1
      have hInv1 := step_inv p s s1 L hInv hI0 hF0 hN0 hS0 hst
      have hassoc : (p ++ [L]) ++ rest = p ++ (L :: rest) := by simp
      have := ih (p ++ [L]) s1 s2 hInv1
        (by rw [hassoc]; exact hI) (by rw [hassoc]; exact hF)
        (by rw [hassoc]; exact hN) (by rw [hassoc]; exact hS) h
      rw [hassoc] at this
      exact this

/-- Running a suffix never disturbs a committed map entry, given the
invariant and global freshness of the opened ids. -/
theorem runFrom_persist (l : List GLine) :
    ∀ (p : List GLine) (s s2 : PState), AssemblerInv p s →
      (openedIndiIds (p ++ l)).Nodup → (openedFamIds (p ++ l)).Nodup →
      (openedNoteIds (p ++ l)).Nodup → (openedSubmIds (p ++ l)).Nodup →
      runFrom s l = .ok s2 →
      (∀ k r, mapGet s.tabs.individuals k = some r →
        mapGet s2.tabs.individuals k = some r) ∧
      (∀ k r, mapGet s.tabs.families k = some r →
        mapGet s2.tabs.families k = some r) ∧
      (∀ k r, mapGet s.tabs.notes k = some r →
        mapGet s2.tabs.notes k = some r) ∧
      (∀ k r, mapGet s.tabs.submitters k = some r →
        mapGet s2.tabs.submitters k = some r) := by
  induction l with
  | nil =>
    intro p s s2 _ _ _ _ _ h
    rw [runFrom] at h
    cases h
    exact ⟨fun _ _ hk => hk, fun _ _ hk => hk, fun _ _ hk => hk,
      fun _ _ hk => hk⟩
  | cons L rest ih =>
    intro p s s2 hInv hI hF hN hS h
    rw [runFrom] at h
    cases hst : stepLine s L with
    | error e => rw [hst] at h; cases h
    | ok s1 =>
      rw [hst] at h
      obtain ⟨i1, i2, i3, i4⟩ := hInv
      have hI0 : (openedIndiIds p).Nodup := by
        have := (openedIds_append p (L :: rest)).1 ▸ hI
        exact (List.nodup_append.mp this).1
      have hF0 : (openedFamIds p).Nodup := by
        have := (openedIds_append p (L :: rest)).2.1 ▸ hF
        exact (List.nodup_append.mp this).1
      have hN0 : (openedNoteIds p).Nodup := by
        have := (openedIds_append p (L :: rest)).2.2.1 ▸ hN
        exact (List.nodup_append.mp this).1
      have hS0 : (openedSubmIds p).Nodup := by
        have := (openedIds_append p (L :: rest)).2.2.2 ▸ hS
        exact (List.nodup_append.mp this).1
      -- one step preserves committed entries
      have hstep :
          (∀ k r, mapGet s.tabs.individuals k = some r →
            mapGet s1.tabs.individuals k = some r) ∧
          (∀ k r, mapGet s.tabs.families k = some r →
            mapGet s1.tabs.families k = some r) ∧
          (∀ k r, mapGet s.tabs.notes k = some r →
            mapGet s1.tabs.notes k = some r) ∧
          (∀ k r, mapGet s.tabs.submitters k = some r →
            mapGet s1.tabs.submitters k = some r) := by
        by_cases h0 : L.level = 0
        · have hget := finalize_get s (i1 ▸ hI0) (i2 ▸ hF0) (i3 ▸ hN0) (i4 ▸ hS0)
          by_cases ht : L.tag = "TRLR"
          · have hs1 : s1 = finalizeCurrentRecord s := by
              obtain ⟨lv, x, tg, v⟩ := L
              simp only [] at h0 ht
              subst h0 ht
              rw [stepLine_trlr] at hst
              cases hst
              rfl
            subst hs1
            exact hget
          · rw [stepLine_zero s L h0 ht] at hst
            cases hst
            exact hget
        · obtain ⟨htabs, _, _, _, _⟩ := stepLine_pos s s1 L h0 hst
          rw [htabs]
          exact ⟨fun _ _ hk => hk, fun _ _ hk => hk, fun _ _ hk => hk,
            fun _ _ hk => hk⟩
      have hInv1 := step_inv p s s1 L ⟨i1, i2, i3, i4⟩ hI0 hF0 hN0 hS0 hst
      have hassoc : (p ++ [L]) ++ rest = p ++ (L :: rest) := by simp
      have hrest := ih (p ++ [L]) s1 s2 hInv1
        (by rw [hassoc]; exact hI) (by rw [hassoc]; exact hF)
        (by rw [hassoc]; exact hN) (by rw [hassoc]; exact hS) h
      exact ⟨fun k r hk => hrest.1 k r (hstep.1 k r hk),
        fun k r hk => hrest.2.1 k r (hstep.2.1 k r hk),
        fun k r hk => hrest.2.2.1 k r (hstep.2.2.1 k r hk),
        fun k r hk => hrest.2.2.2 k r (hstep.2.2.2 k r hk)⟩

/-- Counterexample to C2: on a stream that opens `@I1@` twice, the entry
committed for `@I1@` after the first three lines (sex "M") is later
replaced by a different record (sex "F"), so commitment does not protect
an id against later lines on arbitrary streams. -/
theorem C2_counterexample :
    sexAfter c2dupPrefix "@I1@" = some (some (some "M")) ∧
    sexAfter c2dup "@I1@" = some (some (some "F")) := by
  exact ⟨by decide, by decide⟩

/-- C2 (amended): for every tokenized line stream in which, per entity
type, no identifier is opened by more than one level-0 line, once a
record with a given id has been committed into the
individuals/families/notes/submitters map no later line causes that
entry to be replaced; and a `0 TRLR` line finalizes the last open record
exactly once — processing it equals a single finalization, the second
attempt inside it being a no-op (plain end of input, by contrast,
finalizes nothing). -/
theorem C2_no_overwrite (lines : List GLine)
    (hI : (openedIndiIds lines).Nodup) (hF : (openedFamIds lines).Nodup)
    (hN : (openedNoteIds lines).Nodup) (hS : (openedSubmIds lines).Nodup)
    (l1 l2 : List GLine) (hsplit : lines = l1 ++ l2)
    (s1 s2 : PState) (h1 : runLines l1 = .ok s1) (h2 : runLines lines = .ok s2) :
    ((∀ k r, mapGet s1.tabs.individuals k = some r →
        mapGet s2.tabs.individuals k = some r) ∧
     (∀ k r, mapGet s1.tabs.families k = some r →
        mapGet s2.tabs.families k = some r) ∧
     (∀ k r, mapGet s1.tabs.notes k = some r →
        mapGet s2.tabs.notes k = some r) ∧
     (∀ k r, mapGet s1.tabs.submitters k = some r →
        mapGet s2.tabs.submitters k = some r)) ∧
    (∀ s x v, stepLine s (GLine.mk 0 x "TRLR" v) = .ok (finalizeCurrentRecord s)) ∧
    (∀ s, finalizeCurrentRecord (finalizeCurrentRecord s) = finalizeCurrentRecord s) := by
  subst hsplit
  have h2' : runFrom s1 l2 = .ok s2 := by
    rw [runLines, runFrom_append] at h2
    rw [runLines] at h1
    rw [h1] at h2
    exact h2
  have hIl1 : (openedIndiIds l1).Nodup :=
    (List.nodup_append.mp ((openedIds_append l1 l2).1 ▸ hI)).1
  have hFl1 : (openedFamIds l1).Nodup :=
    (List.nodup_append.mp ((openedIds_append l1 l2).2.1 ▸ hF)).1
  have hNl1 : (openedNoteIds l1).Nodup :=
    (List.nodup_append.mp ((openedIds_append l1 l2).2.2.1 ▸ hN)).1
  have hSl1 : (openedSubmIds l1).Nodup :=
    (List.nodup_append.mp ((openedIds_append l1 l2).2.2.2 ▸ hS)).1
  have hinit : AssemblerInv [] initState := by
    refine ⟨rfl, rfl, rfl, rfl⟩
  have hInv1 : AssemblerInv l1 s1 := by
    have := runFrom_inv l1 [] initState s1 hinit
      (by simpa using hIl1) (by simpa using hFl1)
      (by simpa using hNl1) (by simpa using hSl1)
      (by rw [← runLines]; exact h1)
    simpa using this
  refine ⟨runFrom_persist l2 l1 s1 s2 hInv1 hI hF hN hS h2', ?_, ?_⟩
  · intro s x v
    exact stepLine_trlr s x v
  · intro s
    exact finalize_idem s

/-- Witness for C2 (amended) on a stream opening two distinct
individuals: the entry committed for `@I1@` in the prefix survives the
full run. -/
theorem C2_no_overwrite_witness :
    mapGet c2s2.tabs.individuals "@I1@" =
      some (IndiRec.mk "@I1@"
        (IndiData.mk (some (NameParts.mk "" "" "" none)) (some "M")
          none none none none [] [] [] [] [] [] none)) :=
  (C2_no_overwrite c2demo (by decide) (by decide) (by decide) (by decide)
    c2l1 c2l2 rfl c2s1 c2s2 (by rfl) (by rfl)).1.1 "@I1@"
    (IndiRec.mk "@I1@"
      (IndiData.mk (some (NameParts.mk "" "" "" none)) (some "M")
        none none none none [] [] [] [] [] [] none)) (by decide)

/-- Counterexample to C6: a stream whose individual record with a
pending dateless `BIRT` event ends at plain end of input leaves the
individuals map without any entry for the record — the event (and the
whole record) is dropped rather than committed at end of input, because
`parse` performs no finalization after its line loop. -/
theorem C6_counterexample :
    (runLines c6eof).toOption.map (fun s => mapGet s.tabs.individuals "@I1@") =
      some none := by
  decide

/-- C6 (amended): in an individual record with a pending event carrying
no `DATE` and no `PLAC`, the event is committed with empty-string
components when the record is finalized at a level-0 boundary
(`birth`/`death` as `{date: "", place: ""}` and correspondingly for the
other five event kinds), and opening any new event tag first commits the
pending event and starts a fresh one; a record still open at plain end
of input, however, is not committed at all. -/
theorem C6_empty_event_commit (s : PState) (id : String) (d : IndiData)
    (eid : Nat) (tg : String)
    (hrec : s.currentRecord = some (.indi id d))
    (hce : s.currentEvent = some (eid, newEvent tg)) :
    (tg = "BIRT" → ∃ r,
      mapGet (finalizeCurrentRecord s).tabs.individuals id = some r ∧
      r.d.birth = some (BD.mk "" "")) ∧
    (tg = "DEAT" → ∃ r,
      mapGet (finalizeCurrentRecord s).tabs.individuals id = some r ∧
      r.d.death = some (BD.mk "" "")) ∧
    (tg = "BAPM" → ∃ r,
      mapGet (finalizeCurrentRecord s).tabs.individuals id = some r ∧
      r.d.baptism = some (BapSt.mk "" "" "")) ∧
    (tg = "FCOM" → ∃ r,
      mapGet (finalizeCurrentRecord s).tabs.individuals id = some r ∧
      r.d.firstCommunion = some (BapSt.mk "" "" "")) ∧
    (tg = "GRAD" → ∃ r,
      mapGet (finalizeCurrentRecord s).tabs.individuals id = some r ∧
      r.d.graduations = d.graduations ++ [GradSt.mk "" "" "" ""]) ∧
    (tg = "RESI" → ∃ r,
      mapGet (finalizeCurrentRecord s).tabs.individuals id = some r ∧
      r.d.residences = d.residences ++
        [ResiSt.mk "" none (AddrSt.mk "" none none)]) ∧
    (∀ t2 v lvl parent stk n,
      (t2 = "BIRT" ∨ t2 = "DEAT" ∨ t2 = "BAPM" ∨ t2 = "FCOM" ∨
       t2 = "GRAD" ∨ t2 = "RESI") →
      processIndividualTag t2 v lvl parent d s.currentEvent stk n =
        .ok (IndiStep.mk (finalizeEvent d s.currentEvent).1
          (some (n, newEvent t2)) (stackSet stk lvl (some (.ev n))) (n + 1))) := by
  refine ⟨?_, ?_, ?_, ?_, ?_, ?_, ?_⟩
  · intro htg
    subst htg
    simp [finalizeCurrentRecord, hrec, hce, finalizeEvent, newEvent]
    refine ⟨_, mapGet_mapSet_self _ _ _, ?_⟩
    split <;> rfl
  · intro htg
    subst htg
    simp [finalizeCurrentRecord, hrec, hce, finalizeEvent, newEvent]
    refine ⟨_, mapGet_mapSet_self _ _ _, ?_⟩
    split <;> rfl
  · intro htg
    subst htg
    simp [finalizeCurrentRecord, hrec, hce, finalizeEvent, newEvent]
    refine ⟨_, mapGet_mapSet_self _ _ _, ?_⟩
    split <;> rfl
  · intro htg
    subst htg
    simp [finalizeCurrentRecord, hrec, hce, finalizeEvent, newEvent]
    refine ⟨_, mapGet_mapSet_self _ _ _, ?_⟩
    split <;> rfl
  · intro htg
    subst htg
    simp [finalizeCurrentRecord, hrec, hce, finalizeEvent, newEvent]
    refine ⟨_, mapGet_mapSet_self _ _ _, ?_⟩
    split <;> rfl
  · intro htg
    subst htg
    simp [finalizeCurrentRecord, hrec, hce, finalizeEvent, newEvent]
    refine ⟨_, mapGet_mapSet_self _ _ _, ?_⟩
    split <;> rfl
  · intro t2 v lvl parent stk n h6
    rcases h6 with h6 | h6 | h6 | h6 | h6 | h6 <;> subst h6 <;>
      simp [processIndividualTag]

/-- Witness for C6 at the state reached by `c6eof`: opening `DEAT`
commits the pending empty `BIRT` event and starts the new event. -/
theorem C6_empty_event_commit_witness :
    processIndividualTag "DEAT" "" 1 Slot.record emptyIndiData
        (some (0, newEvent "BIRT")) [] 1 =
      .ok (IndiStep.mk
        (finalizeEvent emptyIndiData (some (0, newEvent "BIRT"))).1
        (some (1, newEvent "DEAT")) (stackSet [] 1 (some (.ev 1))) 2) := by
  have h := (C6_empty_event_commit c6s "@I1@" emptyIndiData 0 "BIRT"
    (by decide) (by decide)).2.2.2.2.2.2 "DEAT" "" 1 Slot.record [] 1
    (Or.inr (Or.inl rfl))
  have hce : c6s.currentEvent = some (0, newEvent "BIRT") := by decide
  rw [hce] at h
  exact h

end FamilyTree
